import Mathlib

/-!
Verification development for the model-conversion scripts in
`examples/YOLOv8-ONNXRuntime-Rust/scripts/` (gqf2008/ultralytics):
`convert_fastest_to_onnx.py`, `convert_fastest_darknet_to_onnx.py`,
`export_int8_models.py`, `export_osnet_official.py`, `quantize_onnx_int8.py`.

The Python code is shallowly embedded. Pure helpers (`parse_cfg`,
`load_weights`, `build_model_from_cfg`, file-name manipulation) become Lean
functions; the driver procedures become functions over an explicit
filesystem value plus oracles standing for the external libraries
(`torch.onnx.export`, `ultralytics.YOLO.export`,
`onnxruntime.quantization.quantize_dynamic`, `onnx.checker`).  A Python
exception is an `Except.error` carrying the exception text; console output
is abstracted as a list of events recording the messages and external calls
relevant to the stated properties.
-/

set_option linter.unusedVariables false

namespace Scripts

/-! ## Python string primitives -/

/-- The characters `str.strip()` removes (Python's `string.whitespace`). -/
def pyWS (c : Char) : Bool :=
  c == ' ' || c == '\t' || c == '\n' || c == '\r' || c == '\x0b' || c == '\x0c'

/-- `str.strip()` on a character list. -/
def pyStripChars (cs : List Char) : List Char :=
  ((cs.dropWhile pyWS).reverse.dropWhile pyWS).reverse

/-- Python `str.strip()`. -/
def pyStrip (s : String) : String :=
  ⟨pyStripChars s.toList⟩

/-- `leadsWith pat xs` is true iff `pat` is an initial segment of `xs`. -/
def leadsWith : List Char → List Char → Bool
  | [], _ => true
  | _ :: _, [] => false
  | p :: ps, x :: xs => p == x && leadsWith ps xs

/-- Python `str.startswith`. -/
def pyStarts (s pat : String) : Bool :=
  leadsWith pat.toList s.toList

/-- Python `str.endswith`. -/
def pyEnds (s pat : String) : Bool :=
  leadsWith pat.toList.reverse s.toList.reverse

/-- `hasSubChars pat xs` is true iff `pat` occurs contiguously in `xs`
(Python's `pat in s`). -/
def hasSubChars (pat : List Char) : List Char → Bool
  | [] => pat.isEmpty
  | x :: xs => leadsWith pat (x :: xs) || hasSubChars pat xs

/-- Python `pat in s` (substring test). -/
def pyHasSub (s pat : String) : Bool :=
  hasSubChars pat.toList s.toList

/-- Left-to-right replacement of non-overlapping occurrences, fuelled by the
length of the scanned list (Python `str.replace` for a non-empty pattern). -/
def replaceAllAux (pat rep : List Char) : Nat → List Char → List Char
  | 0, _ => []
  | _ + 1, [] => []
  | fuel + 1, c :: rest =>
    if !pat.isEmpty && leadsWith pat (c :: rest) then
      rep ++ replaceAllAux pat rep fuel ((c :: rest).drop pat.length)
    else
      c :: replaceAllAux pat rep fuel rest

/-- Python `s.replace(pat, rep)` (all occurrences, non-empty `pat`). -/
def pyReplace (s pat rep : String) : String :=
  ⟨replaceAllAux pat.toList rep.toList s.toList.length s.toList⟩

/-- Python `line[1:-1]`: drop the first and the last character. -/
def slice1m1 (s : String) : String :=
  ⟨(s.toList.drop 1).dropLast⟩

/-- Split on a one-character separator, keeping empty parts
(Python `s.split(sep)` for a single-character `sep`). -/
def splitOnChar (sep : Char) : List Char → List (List Char)
  | [] => [[]]
  | c :: rest =>
    let r := splitOnChar sep rest
    if c == sep then [] :: r
    else
      match r with
      | [] => [[c]]
      | g :: gs => (c :: g) :: gs

/-- Python `s.split(sep)` for a one-character separator, as strings. -/
def pySplit (s : String) (sep : Char) : List String :=
  (splitOnChar sep s.toList).map (fun cs => ⟨cs⟩)

/-- Python `os.path.basename` (POSIX separators). -/
def basenameOf (p : String) : String :=
  match (pySplit p '/').getLast? with
  | some x => x
  | none => p

/-- The value of a non-empty all-digit character list. -/
def digitsVal : List Char → Option Nat
  | [] => none
  | cs =>
    if cs.all (·.isDigit) then
      some (cs.foldl (fun a c => 10 * a + (c.toNat - 48)) 0)
    else none

/-- Python `int(s)` on a decimal string literal (`none` = `ValueError`). -/
def pyToInt (s : String) : Option Int :=
  match pyStripChars s.toList with
  | '-' :: rest => (digitsVal rest).map (fun n => -(n : Int))
  | '+' :: rest => (digitsVal rest).map (fun n => (n : Int))
  | cs => (digitsVal cs).map (fun n => (n : Int))

/-! ## Python dicts as ordered association lists -/

/-- One parsed config block: an insertion-ordered key/value dict. -/
abbrev Blk := List (String × String)

/-- Python dict assignment `d[k] = v`: update the existing entry in place
(keys are unique), else append a new entry. -/
def dinsert : Blk → String → String → Blk
  | [], k, v => [(k, v)]
  | p :: d, k, v => if p.1 == k then (k, v) :: d else p :: dinsert d k v

/-- Python dict read `d.get(k)`. -/
def dget (d : Blk) (k : String) : Option String :=
  (d.find? (fun p => p.1 == k)).map (·.2)

/-! ## `YOLOFastestConverter.parse_cfg`

```python
blocks = []
block = {}
for line in lines:
    line = line.strip()
    if not line or line.startswith('#'):
        continue
    if line.startswith('['):
        if block:
            blocks.append(block)
        block = {'type': line[1:-1].strip()}
    else:
        key, value = line.split('=')
        block[key.strip()] = value.strip()
if block:
    blocks.append(block)
return blocks
```
`key, value = line.split('=')` raises `ValueError` unless the split has
exactly two parts. -/

/-- One loop iteration of `parse_cfg` over the state `(blocks, block)`. -/
def cfgStep (st : List Blk × Blk) (raw : String) : Except String (List Blk × Blk) :=
  let l := pyStrip raw
  if (l == "") || pyStarts l "#" then
    .ok st
  else if pyStarts l "[" then
    .ok (if st.2.isEmpty then st.1 else st.1 ++ [st.2], [("type", pyStrip (slice1m1 l))])
  else
    match pySplit l '=' with
    | [k, v] => .ok (st.1, dinsert st.2 (pyStrip k) (pyStrip v))
    | _ => .error "ValueError"

/-- The trailing `if block: blocks.append(block)`. -/
def cfgFinish (st : List Blk × Blk) : List Blk :=
  if st.2.isEmpty then st.1 else st.1 ++ [st.2]

/-- `YOLOFastestConverter.parse_cfg`, over the list of lines of the file. -/
def parse_cfg (lines : List String) : Except String (List Blk) := do
  let st ← lines.foldlM cfgStep ([], [])
  pure (cfgFinish st)

/-! ## Specification-side view of a well-formed config

Written from the spec's words: lines are classified as skipped
(blank/comment), bracketed section headers, or `key = value` lines; the
blocks are the sections in file order, each a dict holding the header text
under `"type"` and the stripped key/value pairs of its lines. -/

/-- A non-skipped, well-formed config line. -/
inductive CfgItem
  | header (t : String)
  | kv (k v : String)
deriving DecidableEq

/-- Classify a raw line.  `none`: the line is not well-formed
(a header without a closing bracket, or a data line that does not split
into exactly two parts on `=`).  `some none`: skipped.  -/
def classifyLine (raw : String) : Option (Option CfgItem) :=
  let l := pyStrip raw
  if (l == "") || pyStarts l "#" then
    some none
  else if pyStarts l "[" then
    if pyEnds l "]" then some (some (.header (pyStrip (slice1m1 l)))) else none
  else
    match pySplit l '=' with
    | [k, v] => some (some (.kv (pyStrip k) (pyStrip v)))
    | _ => none

/-- The well-formed items of a file, in order. -/
def itemsOf (lines : List String) : List CfgItem :=
  lines.filterMap (fun l =>
    match classifyLine l with
    | some (some it) => some it
    | _ => none)

/-- True unless the first item is a `key = value` line with no preceding
section header. -/
def headed : List CfgItem → Bool
  | .kv _ _ :: _ => false
  | _ => true

/-- A config file is well-formed when every line classifies and the first
item is a section header. -/
def WellFormedCfg (lines : List String) : Prop :=
  (∀ l ∈ lines, (classifyLine l).isSome = true) ∧ headed (itemsOf lines) = true

/-- Group items into sections: each section is its header text together
with its `key = value` pairs in file order. -/
def sectionsGo : String → List (String × String) → List CfgItem →
    List (String × List (String × String))
  | t, acc, [] => [(t, acc)]
  | t, acc, .header t' :: rest => (t, acc) :: sectionsGo t' [] rest
  | t, acc, .kv k v :: rest => sectionsGo t (acc ++ [(k, v)]) rest

/-- The sections of a well-formed config file. -/
def sectionsOf (lines : List String) : List (String × List (String × String)) :=
  match itemsOf lines with
  | CfgItem.header t :: rest => sectionsGo t [] rest
  | _ => []

/-- The block a section denotes: the header text under `"type"`, then the
recorded `key = value` pairs. -/
def blockOf (sec : String × List (String × String)) : Blk :=
  sec.2.foldl (fun d p => dinsert d p.1 p.2) [("type", sec.1)]

/-- The value of the final `key = value` line for `k` within a section. -/
def lastVal (kvs : List (String × String)) (k : String) : Option String :=
  (kvs.reverse.find? (fun p => p.1 == k)).map (·.2)

/-- Specification-side effect of one item on the parser state. -/
def stepItem (st : List Blk × Blk) : CfgItem → List Blk × Blk
  | .header t => (if st.2.isEmpty then st.1 else st.1 ++ [st.2], [("type", t)])
  | .kv k v => (st.1, dinsert st.2 k v)

/-- A line on which `parse_cfg` cannot raise: blank, comment, any line
starting with `[`, or a line splitting into exactly two parts on `=`. -/
def lineBenign (raw : String) : Bool :=
  (pyStrip raw == "") || pyStarts (pyStrip raw) "#" || pyStarts (pyStrip raw) "[" ||
    (pySplit (pyStrip raw) '=').length == 2

/-! ## `YOLOFastestConverter.load_weights`

```python
with open(weights_file, 'rb') as f:
    header = np.fromfile(f, dtype=np.int32, count=5)
    weights = np.fromfile(f, dtype=np.float32)
return weights
```
A file is a byte list; both `np.int32` and `np.float32` values are
modelled as the little-endian 32-bit words they occupy, since the code
never inspects them. `np.fromfile` reads as many complete items as are
available, advancing the file position. -/

/-- Split into complete 4-byte groups; trailing bytes are dropped. -/
def chunks4 : List Nat → List (List Nat)
  | a :: b :: c :: d :: rest => [a, b, c, d] :: chunks4 rest
  | _ => []

/-- A 4-byte group as a little-endian 32-bit word. -/
def word32LE : List Nat → Nat
  | [a, b, c, d] => a + 256 * b + 65536 * c + 16777216 * d
  | _ => 0

/-- All complete 32-bit words of a byte list, in order. -/
def wordsOf (bytes : List Nat) : List Nat :=
  (chunks4 bytes).map word32LE

/-- An open binary file: contents plus current position. -/
structure BinHandle where
  data : List Nat
  pos : Nat

/-- `np.fromfile(f, dtype=<32-bit>, count=n)`. -/
def npFromfileCount (h : BinHandle) (count : Nat) : List Nat × BinHandle :=
  let ws := (wordsOf (h.data.drop h.pos)).take count
  (ws, ⟨h.data, h.pos + 4 * ws.length⟩)

/-- `np.fromfile(f, dtype=<32-bit>)`: read to the end of the file. -/
def npFromfileAll (h : BinHandle) : List Nat × BinHandle :=
  (wordsOf (h.data.drop h.pos), ⟨h.data, h.data.length⟩)

/-- `YOLOFastestConverter.load_weights` over the file's bytes. -/
def load_weights (file : List Nat) : List Nat :=
  let r5 := npFromfileCount ⟨file, 0⟩ 5
  (npFromfileAll r5.2).1

/-- The header that `load_weights` reads and discards. -/
def load_weights_header (file : List Nat) : List Nat :=
  (npFromfileCount ⟨file, 0⟩ 5).1

/-! ## `SimplifiedYOLOFastest` and `build_model_from_cfg`

```python
def build_model_from_cfg(self, blocks):
    net_info = blocks[0]
    input_size = int(net_info.get('width', 320))
    return SimplifiedYOLOFastest(input_size)
```
`SimplifiedYOLOFastest.__init__` stores `input_size` and builds a fixed
`Conv2d(3,64,3,padding=1) → BatchNorm2d(64) → ReLU → MaxPool2d(2,2)`
backbone and a `Conv2d(64,255,1)` head. -/

/-- A PyTorch layer, at the granularity the script constructs them. -/
inductive Layer
  | conv2d (inC outC k pad : Nat)
  | batchNorm2d (c : Nat)
  | relu
  | maxPool2d (k s : Nat)
deriving DecidableEq

/-- The placeholder model object. -/
structure SimplifiedYOLOFastest where
  input_size : Int
  backbone : List Layer
  head : Layer
deriving DecidableEq

/-- `SimplifiedYOLOFastest.__init__`. -/
def mkSimplified (input_size : Int) : SimplifiedYOLOFastest :=
  { input_size := input_size
    backbone := [.conv2d 3 64 3 1, .batchNorm2d 64, .relu, .maxPool2d 2 2]
    head := .conv2d 64 255 1 0 }

/-- `YOLOFastestConverter.build_model_from_cfg`. `blocks[0]` on an empty
list raises `IndexError`; `int()` on a non-numeric width raises
`ValueError`. -/
def build_model_from_cfg (blocks : List Blk) : Except String SimplifiedYOLOFastest :=
  match blocks with
  | [] => .error "IndexError"
  | b0 :: _ =>
    match dget b0 "width" with
    | none => .ok (mkSimplified 320)
    | some s =>
      match pyToInt s with
      | none => .error "ValueError"
      | some n => .ok (mkSimplified n)

/-! ## Filesystem and console model -/

/-- A file's contents: the cfg reader needs text lines, the weights reader
bytes. -/
inductive FData
  | txt (lines : List String)
  | bin (bytes : List Nat)
deriving DecidableEq

/-- File size in bytes, as used by `stat()`/`os.path.getsize`. -/
def FData.size : FData → Nat
  | .txt ls => (ls.map String.length).sum + ls.length
  | .bin bs => bs.length

/-- Reading a file in binary mode (`open(..., 'rb')`). -/
def FData.asBytes : FData → List Nat
  | .txt ls => (String.intercalate "\n" ls).toList.map Char.toNat
  | .bin bs => bs

/-- The filesystem: an ordered list of (path, contents) pairs.  Directory
listings enumerate the stored order (standing in for `os.listdir`). -/
abbrev FS := List (String × FData)

/-- Contents at a path. -/
def FS.lookup (fs : FS) (p : String) : Option FData :=
  (List.find? (fun q => q.1 == p) fs).map (·.2)

/-- `os.path.exists`. -/
def FS.hasFile (fs : FS) (p : String) : Bool :=
  (fs.lookup p).isSome

/-- Writing a file: overwrite in place, or append a new entry. -/
def FS.write (fs : FS) (p : String) (d : FData) : FS :=
  if fs.hasFile p then
    fs.map (fun q => if q.1 == p then (p, d) else q)
  else fs ++ [(p, d)]

/-- Deleting a file (the source half of `shutil.move`). -/
def FS.remove (fs : FS) (p : String) : FS :=
  fs.filter (fun q => !(q.1 == p))

/-- A console/trace event: a printed message, or an external-library
invocation. Only the messages the verified properties mention are
recorded. -/
inductive Ev
  | out (s : String)
  | call (s : String)
deriving DecidableEq

/-- Result of one driver function: the Python return value (`.error` = an
uncaught exception), the filesystem after the call, and the trace. -/
structure DRes where
  rv : Except String Bool
  fs : FS
  log : List Ev

/-! ## `convert_fastest_to_onnx.py`: `YOLOFastestConverter.convert` -/

/-- One entry of `self.models`. -/
structure MInfo where
  name : String
  cfg : String
  weights : String
  output : String
deriving DecidableEq

/-- `self.models` (paths joined with `MODELS_DIR`, written `models/...`). -/
def models : List (String × MInfo) :=
  [ ("1", { name := "YOLO-Fastest-1.1"
            cfg := "models/yolo-fastest-1.1/yolo-fastest-1.1.cfg"
            weights := "models/yolo-fastest-1.1/yolo-fastest-1.1.weights"
            output := "models/yolo-fastest-1.1.onnx" })
  , ("2", { name := "YOLO-Fastest-XL"
            cfg := "models/yolo-fastest-1.1/yolo-fastest-1.1-xl.cfg"
            weights := "models/yolo-fastest-1.1/yolo-fastest-1.1-xl.weights"
            output := "models/yolo-fastest-xl.onnx" })
  , ("3", { name := "YOLO-Fastest-1.1-Body"
            cfg := "models/yolo-fastest-1.1_body/yolo-fastest-1.1_body.cfg"
            weights := "models/yolo-fastest-1.1_body/yolo-fastest-1.1_body.weights"
            output := "models/yolo-fastest-1.1-body.onnx" })
  ]

/-- `self.models[model_key]` after the `model_key not in self.models`
check. -/
def findModel (key : String) : Option MInfo :=
  (models.find? (fun p => p.1 == key)).map (·.2)

/-- External calls made inside `convert`'s `try:` block.
`torchExport`: `torch.onnx.export` — on success the returned contents are
written to the given output path.  `onnxCheck`: `onnx.load` plus
`onnx.checker.check_model` on those contents. -/
structure ConvOracle where
  torchExport : SimplifiedYOLOFastest → Except String FData
  onnxCheck : FData → Except String Unit

/-- The body of `convert`'s `try:` block (config parse, weights load,
model build, ONNX export, verification, output `stat`).  An `.error`
return is the pending exception the surrounding `except` catches. -/
def convertTry (oc : ConvOracle) (fs : FS) (mi : MInfo) : DRes :=
  match fs.lookup mi.cfg with
  | none => ⟨.error "FileNotFoundError", fs, [.call "parse_cfg"]⟩
  | some (FData.bin _) => ⟨.error "UnicodeDecodeError", fs, [.call "parse_cfg"]⟩
  | some (FData.txt lines) =>
    match parse_cfg lines with
    | .error e => ⟨.error e, fs, [.call "parse_cfg"]⟩
    | .ok blocks =>
      match fs.lookup mi.weights with
      | none => ⟨.error "FileNotFoundError", fs, [.call "parse_cfg", .call "load_weights"]⟩
      | some wd =>
        let ws := load_weights wd.asBytes
        match build_model_from_cfg blocks with
        | .error e => ⟨.error e, fs, [.call "parse_cfg", .call "load_weights"]⟩
        | .ok m =>
          match oc.torchExport m with
          | .error e =>
            ⟨.error e, fs, [.call "parse_cfg", .call "load_weights", .call "torch.onnx.export"]⟩
          | .ok d =>
            let fs1 := fs.write mi.output d
            match fs1.lookup mi.output with
            | none =>
              ⟨.error "FileNotFoundError", fs1,
                [.call "parse_cfg", .call "load_weights", .call "torch.onnx.export"]⟩
            | some dd =>
              match oc.onnxCheck dd with
              | .error e =>
                ⟨.error e, fs1,
                  [.call "parse_cfg", .call "load_weights", .call "torch.onnx.export",
                   .call "onnx.checker.check_model"]⟩
              | .ok _ =>
                ⟨.ok true, fs1,
                  [.call "parse_cfg", .call "load_weights", .call "torch.onnx.export",
                   .call "onnx.checker.check_model",
                   .out ("✅ Successfully converted to: " ++ mi.output)]⟩

/-- `YOLOFastestConverter.convert`. -/
def convert (oc : ConvOracle) (fs : FS) (key : String) : DRes :=
  match findModel key with
  | none => ⟨.ok false, fs, [.out ("❌ Invalid model key: " ++ key)]⟩
  | some mi =>
    let banner : Ev := .out ("Converting " ++ mi.name)
    if fs.hasFile mi.cfg = false then
      ⟨.ok false, fs, [banner, .out ("❌ Config file not found: " ++ mi.cfg)]⟩
    else if fs.hasFile mi.weights = false then
      ⟨.ok false, fs, [banner, .out ("❌ Weights file not found: " ++ mi.weights)]⟩
    else
      let t := convertTry oc fs mi
      match t.rv with
      | .error e => ⟨.ok false, t.fs, banner :: (t.log ++ [.out ("❌ Conversion failed: " ++ e)])⟩
      | .ok b => ⟨.ok b, t.fs, banner :: t.log⟩

/-- The loop of `convert_all` over `self.models.keys()`, collecting each
model's success flag. -/
def convertAllGo (oc : ConvOracle) : List String → FS → Except String (List Bool) × FS × List Ev
  | [], fs => (.ok [], fs, [])
  | k :: rest, fs =>
    let r := convert oc fs k
    match r.rv with
    | .error e => (.error e, r.fs, r.log)
    | .ok b =>
      match convertAllGo oc rest r.fs with
      | (.error e, fs', log') => (.error e, fs', r.log ++ log')
      | (.ok bs, fs', log') => (.ok (b :: bs), fs', r.log ++ log')

/-- `YOLOFastestConverter.convert_all`: returns `all(results.values())`. -/
def convert_all (oc : ConvOracle) (fs : FS) : Except String Bool × FS × List Ev :=
  match convertAllGo oc ["1", "2", "3"] fs with
  | (.error e, fs', log) => (.error e, fs', log)
  | (.ok bs, fs', log) => (.ok (bs.all id), fs', log)

/-! ## `quantize_onnx_int8.py` -/

/-- `onnxruntime.quantization.quantize_dynamic`: output contents as a
function of the input model's contents (written to the output path on
success). -/
structure QuantOracle where
  quantizeDyn : FData → Except String FData

/-- The body of `quantize_onnx_model`'s `try:` block.  A zero-byte output
makes `compression_ratio = size_mb / quantized_size_mb` raise
`ZeroDivisionError` — after the output file was already written. -/
def quantTry (oq : QuantOracle) (fs : FS) (inp outp : String) : DRes :=
  match fs.lookup inp with
  | none => ⟨.error "FileNotFoundError", fs, []⟩
  | some d =>
    match oq.quantizeDyn d with
    | .error e => ⟨.error e, fs, [.call "quantize_dynamic"]⟩
    | .ok qd =>
      let fs1 := fs.write outp qd
      match fs1.lookup outp with
      | none => ⟨.error "FileNotFoundError", fs1, [.call "quantize_dynamic"]⟩
      | some qd' =>
        if qd'.size == 0 then
          ⟨.error "float division by zero", fs1, [.call "quantize_dynamic"]⟩
        else
          ⟨.ok true, fs1, [.call "quantize_dynamic", .out ("✅ 量化成功: " ++ outp)]⟩

/-- `quantize_onnx_model`. -/
def quantize_onnx_model (oq : QuantOracle) (fs : FS) (inp outp : String) : DRes :=
  let hdr : Ev := .out ("📦 输入模型: " ++ inp)
  if fs.hasFile inp = false then
    ⟨.ok false, fs, [hdr, .out ("❌ 模型文件不存在: " ++ inp)]⟩
  else
    let t := quantTry oq fs inp outp
    match t.rv with
    | .error e => ⟨.ok false, t.fs, hdr :: (t.log ++ [.out ("❌ 量化失败: " ++ e)])⟩
    | .ok b => ⟨.ok b, t.fs, hdr :: t.log⟩

/-- The selection filter of `main`: `filename.endswith('.onnx') and
'_int8' not in filename`. -/
def selName (n : String) : Bool :=
  pyEnds n ".onnx" && !(pyHasSub n "_int8")

/-- `main`'s output name: `model_name.replace('.onnx', '') + "_int8.onnx"`. -/
def quantOutName (n : String) : String :=
  pyReplace n ".onnx" "" ++ "_int8.onnx"

/-- Result of a whole `main` run. -/
structure QRes where
  fs : FS
  succ : Nat
  log : List Ev
deriving DecidableEq

/-- `main`'s loop over the selected models (paths relative to the models
directory): skip when the output already exists, else quantize; failures
do not stop the loop. -/
def quantLoop (oq : QuantOracle) : List String → FS → Nat → QRes
  | [], fs, succ => ⟨fs, succ, []⟩
  | n :: rest, fs, succ =>
    let outp := quantOutName n
    if fs.hasFile outp then
      let R := quantLoop oq rest fs succ
      ⟨R.fs, R.succ, .out ("⏭️ 跳过 (已存在): " ++ outp) :: R.log⟩
    else
      let r := quantize_onnx_model oq fs n outp
      let succ' := match r.rv with
        | .ok true => succ + 1
        | _ => succ
      let R := quantLoop oq rest r.fs succ'
      ⟨R.fs, R.succ, r.log ++ R.log⟩

/-- `quantize_onnx_int8.main`. -/
def quantMain (oq : QuantOracle) (fs : FS) : QRes :=
  let sel := (fs.map (·.1)).filter selName
  if sel.isEmpty then
    ⟨fs, 0, [.out "❌ 在 models/ 目录下未找到ONNX模型"]⟩
  else
    quantLoop oq sel fs 0

/-! ## `export_int8_models.py` -/

/-- The ultralytics library calls inside `export_int8_model`'s `try:`
block. `loadModel`: the `YOLO(model_path)` constructor on the checkpoint's
contents.  `export`: `model.export(**export_args)` — returns the path the
library reports, and the contents it wrote there (`none` when the library
reported a path without leaving a file: the code guards for that with
`os.path.exists(exported_path)`). -/
structure UltraOracle where
  loadModel : FData → Except String Unit
  exportCall : FData → Except String (String × Option FData)

/-- The declared output path: `os.path.join('models',
os.path.basename(model_path).replace('.pt', '') + "_int8.onnx")`. -/
def int8Target (p : String) : String :=
  "models/" ++ pyReplace (basenameOf p) ".pt" "" ++ "_int8.onnx"

/-- The body of `export_int8_model`'s `try:` block: load, export, and —
only if the exported file exists — move it to the declared target.  Note
the `return True` sits outside that `if`. -/
def exportInt8Try (ou : UltraOracle) (fs : FS) (p : String) : DRes :=
  match fs.lookup p with
  | none => ⟨.error "FileNotFoundError", fs, [.call "YOLO"]⟩
  | some d =>
    match ou.loadModel d with
    | .error e => ⟨.error e, fs, [.call "YOLO"]⟩
    | .ok _ =>
      match ou.exportCall d with
      | .error e => ⟨.error e, fs, [.call "YOLO", .call "model.export"]⟩
      | .ok (epath, od) =>
        let fs1 := match od with
          | some ed => fs.write epath ed
          | none => fs
        match fs1.lookup epath with
        | some ed =>
          let fs2 := (fs1.remove epath).write (int8Target p) ed
          ⟨.ok true, fs2,
            [.call "YOLO", .call "model.export", .out ("📁 已保存到: " ++ int8Target p)]⟩
        | none => ⟨.ok true, fs1, [.call "YOLO", .call "model.export"]⟩

/-- `export_int8_model`. -/
def export_int8_model (ou : UltraOracle) (fs : FS) (p : String) : DRes :=
  if fs.hasFile p = false then
    ⟨.ok false, fs, [.out ("❌ 模型文件不存在: " ++ p)]⟩
  else
    let t := exportInt8Try ou fs p
    match t.rv with
    | .error e => ⟨.ok false, t.fs, t.log ++ [.out ("❌ 导出失败: " ++ e)]⟩
    | .ok b => t

/-- `models_to_export` in `export_int8_models.main`. -/
def modelsToExport : List (String × String) :=
  [ ("yolov8n.pt", "超轻量检测模型"), ("yolov8s.pt", "小型检测模型")
  , ("yolov8m.pt", "中型检测模型"), ("yolov8l.pt", "大型检测模型")
  , ("yolov8x.pt", "超大检测模型"), ("yolov8n-pose.pt", "超轻量姿态估计")
  , ("yolov8s-pose.pt", "小型姿态估计"), ("yolov8m-pose.pt", "中型姿态估计")
  , ("yolov8l-pose.pt", "大型姿态估计"), ("yolov8x-pose.pt", "超大姿态估计") ]

/-- The loop of `export_int8_models.main`: `(fs, success_count,
total_count, trace)`; missing checkpoints are skipped, failures do not
stop the loop. -/
def exportMainGo (ou : UltraOracle) : List (String × String) → FS → FS × Nat × Nat × List Ev
  | [], fs => (fs, 0, 0, [])
  | (p, desc) :: rest, fs =>
    let hdr : Ev := .out ("🎯 " ++ desc)
    if fs.hasFile p then
      let r := export_int8_model ou fs p
      let R2 := exportMainGo ou rest r.fs
      let sInc : Nat := match r.rv with
        | .ok true => 1
        | _ => 0
      (R2.1, sInc + R2.2.1, 1 + R2.2.2.1, hdr :: (r.log ++ R2.2.2.2))
    else
      let R2 := exportMainGo ou rest fs
      (R2.1, R2.2.1, R2.2.2.1,
        hdr :: .out ("⏭️ 跳过 (文件不存在): " ++ p) :: R2.2.2.2)

/-- `export_int8_models.main`. -/
def exportMain (ou : UltraOracle) (fs : FS) : FS × Nat × Nat × List Ev :=
  exportMainGo ou modelsToExport fs

/-! ## `export_osnet_official.py`

`export_osnet_to_onnx` has no surrounding `try:`; the only guarded call is
`onnx.checker.check_model`, whose failure is printed as a warning.  The
function returns `None`, so its result type is `Except String Unit`:
`.error` is an exception propagating out of the function. -/

/-- The external calls of `export_osnet_to_onnx`, in call order. -/
structure OsnetOracle where
  buildModel : Except String Unit
  torchLoad : FData → Except String Unit
  forwardPass : Except String Unit
  torchExport : Except String FData
  checkModel : FData → Except String Unit
  ortRun : FData → Except String Unit

/-- `export_osnet_to_onnx`. -/
def export_osnet_to_onnx (oo : OsnetOracle) (fs : FS) : Except String Unit × FS × List Ev :=
  match oo.buildModel with
  | .error e => (.error e, fs, [.call "torchreid.models.build_model"])
  | .ok _ =>
    match fs.lookup "models/osnet_ain_x1_0_imagenet.pth" with
    | none => (.error "FileNotFoundError", fs, [.call "torchreid.models.build_model"])
    | some ck =>
      match oo.torchLoad ck with
      | .error e => (.error e, fs, [.call "torchreid.models.build_model", .call "torch.load"])
      | .ok _ =>
        match oo.forwardPass with
        | .error e =>
          (.error e, fs, [.call "torchreid.models.build_model", .call "torch.load"])
        | .ok _ =>
          match oo.torchExport with
          | .error e =>
            (.error e, fs,
              [.call "torchreid.models.build_model", .call "torch.load",
               .call "torch.onnx.export"])
          | .ok d =>
            let fs1 := fs.write "models/osnet_ain_x1_0.onnx" d
            match fs1.lookup "models/osnet_ain_x1_0.onnx" with
            | none =>
              (.error "FileNotFoundError", fs1,
                [.call "torchreid.models.build_model", .call "torch.load",
                 .call "torch.onnx.export"])
            | some dd =>
              let checkLog := match oo.checkModel dd with
                | .error e => [.call "onnx.checker.check_model",
                    .out ("⚠️ ONNX模型验证失败: " ++ e)]
                | .ok _ => [.call "onnx.checker.check_model", .out "✅ ONNX模型验证通过"]
              match oo.ortRun dd with
              | .error e =>
                (.error e, fs1,
                  [.call "torchreid.models.build_model", .call "torch.load",
                   .call "torch.onnx.export"] ++ checkLog ++ [.call "onnxruntime"])
              | .ok _ =>
                (.ok (), fs1,
                  [.call "torchreid.models.build_model", .call "torch.load",
                   .call "torch.onnx.export"] ++ checkLog ++ [.call "onnxruntime"])

/-! ## Concrete scenarios used to exercise the theorems -/

/-- A converter oracle whose external calls always succeed. -/
def ocOk : ConvOracle :=
  { torchExport := fun _ => .ok (.bin [1, 2, 3]), onnxCheck := fun _ => .ok () }

/-- A converter oracle whose export call raises. -/
def ocErr : ConvOracle :=
  { torchExport := fun _ => .error "torch boom", onnxCheck := fun _ => .ok () }

/-- A filesystem with the files of models "2" and "3" present but the
config of model "1" missing. -/
def fsConvDemo : FS :=
  [ ("models/yolo-fastest-1.1/yolo-fastest-1.1-xl.cfg", .txt ["[net]", "width = 320"])
  , ("models/yolo-fastest-1.1/yolo-fastest-1.1-xl.weights", .bin (List.replicate 24 0))
  , ("models/yolo-fastest-1.1_body/yolo-fastest-1.1_body.cfg", .txt ["[net]"])
  , ("models/yolo-fastest-1.1_body/yolo-fastest-1.1_body.weights", .bin []) ]

/-- A quantization oracle that always succeeds with a one-byte model. -/
def oqOk : QuantOracle := { quantizeDyn := fun _ => .ok (.bin [9]) }

/-- A quantization oracle that always raises. -/
def oqErr : QuantOracle := { quantizeDyn := fun _ => .error "quant boom" }

/-- A models directory holding one ONNX file whose name contains `.onnx`
twice. -/
def fsQDemo : FS := [("a.onnx.onnx", FData.bin [1])]

/-- An ultralytics oracle that always succeeds, reporting the path
`yolov8n.onnx` with two bytes of contents. -/
def ouOk : UltraOracle :=
  { loadModel := fun _ => .ok ()
    exportCall := fun _ => .ok ("yolov8n.onnx", some (.bin [5, 6])) }

/-- An ultralytics oracle whose export call raises. -/
def ouErr : UltraOracle :=
  { loadModel := fun _ => .ok (), exportCall := fun _ => .error "ultra boom" }

/-- A directory holding the `yolov8n.pt` checkpoint. -/
def fsUDemo : FS := [("yolov8n.pt", FData.bin [1])]

/-- An osnet oracle where everything succeeds except `torch.onnx.export`,
which raises. -/
def ooErr : OsnetOracle :=
  { buildModel := .ok (), torchLoad := fun _ => .ok (), forwardPass := .ok ()
    torchExport := .error "osnet boom", checkModel := fun _ => .ok ()
    ortRun := fun _ => .ok () }

/-- A directory holding the osnet checkpoint. -/
def fsODemo : FS := [("models/osnet_ain_x1_0_imagenet.pth", FData.bin [0])]

/-! # Lemmas -/

/-! ## Filesystem lemmas -/

theorem FS.lookup_cons (q : String × FData) (fs : FS) (p : String) :
    FS.lookup (q :: fs) p = if q.1 == p then some q.2 else FS.lookup fs p := by
  cases h : q.1 == p <;> simp [FS.lookup, List.find?_cons, h]

theorem FS.lookup_append (fs fs' : FS) (p : String) :
    FS.lookup (fs ++ fs') p =
      (match fs.lookup p with
       | some d => some d
       | none => fs'.lookup p) := by
  simp only [FS.lookup, List.find?_append]
  cases h : List.find? (fun q => q.1 == p) fs <;> simp [h]

/-- Updating in place does not change the list of names. -/
theorem FS.names_map_update (fs : FS) (p : String) (d : FData) :
    (fs.map (fun q => if q.1 == p then (p, d) else q)).map (·.1) = fs.map (·.1) := by
  induction fs with
  | nil => rfl
  | cons q fs ih =>
    simp only [List.map_cons, ih]
    by_cases h : q.1 = p
    · simp [h]
    · simp [h]

theorem FS.lookup_map_update_self (fs : FS) (p : String) (d : FData)
    (h : FS.hasFile fs p = true) :
    FS.lookup (fs.map (fun q => if q.1 == p then (p, d) else q)) p = some d := by
  induction fs with
  | nil => simp [FS.hasFile, FS.lookup] at h
  | cons q fs ih =>
    by_cases hq : q.1 = p
    · simp [List.map_cons, FS.lookup_cons, hq]
    · have h' : FS.hasFile fs p = true := by
        simpa [FS.hasFile, FS.lookup_cons, hq] using h
      simpa [List.map_cons, FS.lookup_cons, hq] using ih h'

theorem FS.lookup_map_update_ne (fs : FS) (p p' : String) (d : FData)
    (h : p' ≠ p) :
    FS.lookup (fs.map (fun q => if q.1 == p then (p, d) else q)) p' = fs.lookup p' := by
  simp only [beq_iff_eq]
  induction fs with
  | nil => rfl
  | cons q fs ih =>
    by_cases hq : q.1 = p
    · have hne : ¬ p = p' := fun he => h he.symm
      simp [List.map_cons, FS.lookup_cons, hq, hne, ih]
    · by_cases hq' : q.1 = p' <;> simp [List.map_cons, FS.lookup_cons, hq, hq', ih, h]

/-- Looking up the path just written returns the written contents. -/
theorem FS.lookup_write_self (fs : FS) (p : String) (d : FData) :
    (fs.write p d).lookup p = some d := by
  unfold FS.write
  by_cases h : FS.hasFile fs p = true
  · simpa [h] using FS.lookup_map_update_self fs p d h
  · have hn : FS.lookup fs p = none := by
      cases hl : FS.lookup fs p with
      | none => rfl
      | some d' => simp [FS.hasFile, hl] at h
    rw [if_neg h, FS.lookup_append]
    simp only [FS.lookup, Option.map] at hn ⊢
    rw [hn]
    simp [List.find?_cons]

/-- Writing one path does not change any other path. -/
theorem FS.lookup_write_ne (fs : FS) (p p' : String) (d : FData) (h : p' ≠ p) :
    (fs.write p d).lookup p' = fs.lookup p' := by
  unfold FS.write
  by_cases hf : fs.hasFile p
  · simpa [hf] using FS.lookup_map_update_ne fs p p' d h
  · have hne : ¬ p = p' := fun he => h he.symm
    simp only [hf, Bool.false_eq_true, if_false, FS.lookup_append, FS.lookup_cons,
      beq_iff_eq, hne]
    cases hl : fs.lookup p' <;> simp [FS.lookup]

/-- Writing never removes a file. -/
theorem FS.hasFile_write_mono (fs : FS) (p q : String) (d : FData)
    (h : fs.hasFile q = true) : (fs.write p d).hasFile q = true := by
  by_cases hq : q = p
  · subst hq; simp [FS.hasFile, FS.lookup_write_self]
  · simpa [FS.hasFile, FS.lookup_write_ne fs p q d hq] using h

/-- The file just written is present. -/
theorem FS.hasFile_write_self (fs : FS) (p : String) (d : FData) :
    (fs.write p d).hasFile p = true := by
  simp [FS.hasFile, FS.lookup_write_self]

/-- Writing appends at most the written name to the directory listing. -/
theorem FS.names_write (fs : FS) (p : String) (d : FData) :
    (fs.write p d).map (·.1) = fs.map (·.1) ∨
    (fs.write p d).map (·.1) = fs.map (·.1) ++ [p] := by
  unfold FS.write
  by_cases h : fs.hasFile p
  · exact Or.inl (by simpa [h] using FS.names_map_update fs p d)
  · exact Or.inr (by simp [h])

/-- A listed name is a present file and vice versa. -/
theorem FS.mem_names_iff_hasFile (fs : FS) (p : String) :
    p ∈ fs.map (·.1) ↔ FS.hasFile fs p = true := by
  induction fs with
  | nil => simp [FS.hasFile, FS.lookup]
  | cons q fs ih =>
    by_cases h : q.1 = p
    · simp [FS.hasFile, FS.lookup_cons, h]
    · have hne : ¬ p = q.1 := fun he => h he.symm
      simp only [List.map_cons, List.mem_cons, hne, false_or]
      simpa [FS.hasFile, FS.lookup_cons, h] using ih

/-! ## Substring lemmas -/

theorem hasSubChars_append_of_right (pat xs ys : List Char)
    (h : hasSubChars pat ys = true) : hasSubChars pat (xs ++ ys) = true := by
  induction xs with
  | nil => simpa using h
  | cons x xs ih => simp [hasSubChars, ih]

/-- Every name produced by appending `"_int8.onnx"` contains `"_int8"`. -/
theorem pyHasSub_int8_append (s : String) :
    pyHasSub (s ++ "_int8.onnx") "_int8" = true := by
  unfold pyHasSub
  have hl : (s ++ "_int8.onnx").toList = s.toList ++ "_int8.onnx".toList := by
    simp [String.toList]
  rw [hl]
  exact hasSubChars_append_of_right _ _ _ (by decide)

/-- The output name of the quantization loop always contains `"_int8"`. -/
theorem pyHasSub_quantOutName (n : String) :
    pyHasSub (quantOutName n) "_int8" = true :=
  pyHasSub_int8_append _

/-- A selected input never equals a produced output name. -/
theorem selName_ne_quantOutName (n m : String) (h : selName n = true) :
    n ≠ quantOutName m := by
  intro he
  have h2 := pyHasSub_quantOutName m
  rw [← he] at h2
  simp [selName, h2] at h

/-! ## Dict lemmas -/

theorem dinsert_ne_nil (d : Blk) (k v : String) : dinsert d k v ≠ [] := by
  cases d with
  | nil => simp [dinsert]
  | cons p d => by_cases h : p.1 = k <;> simp [dinsert, h]

theorem dget_dinsert (d : Blk) (k' v' k : String) :
    dget (dinsert d k' v') k = if k = k' then some v' else dget d k := by
  induction d with
  | nil =>
    by_cases h : k = k'
    · simp [dinsert, dget, List.find?_cons, h]
    · have hne : ¬ k' = k := fun he => h he.symm
      simp [dinsert, dget, List.find?_cons, h, hne]
  | cons q d ih =>
    by_cases hq : q.1 = k'
    · by_cases h : k = k'
      · simp [dinsert, hq, dget, List.find?_cons, beq_iff_eq, h]
      · have hne : ¬ (k' == k) = true := by
          simp [beq_iff_eq]; exact fun he => h he.symm
        have hqk : ¬ (q.1 == k) = true := by simp [beq_iff_eq, hq]; exact fun he => h he.symm
        simp [dinsert, hq, dget, List.find?_cons, hne, h, hqk]
    · by_cases hk : q.1 = k
      · have h : k ≠ k' := fun he => hq (hk.trans he)
        simp [dinsert, hq, dget, List.find?_cons, hk, h]
      · simpa [dinsert, hq, dget, List.find?_cons, hk] using ih

theorem lastVal_cons (p : String × String) (kvs : List (String × String)) (k : String) :
    lastVal (p :: kvs) k =
      (match lastVal kvs k with
       | some v => some v
       | none => if p.1 == k then some p.2 else none) := by
  simp only [lastVal, List.reverse_cons, List.find?_append]
  cases h : List.find? (fun q => q.1 == k) kvs.reverse with
  | none => cases hb : p.1 == k <;> simp [h, List.find?_cons, hb]
  | some q => simp [h]

/-- Folding the recorded `key = value` assignments of a section gives each
key the value of its last assignment. -/
theorem dget_foldl_dinsert (kvs : List (String × String)) (d : Blk) (k : String) :
    dget (kvs.foldl (fun d p => dinsert d p.1 p.2) d) k =
      (match lastVal kvs k with
       | some v => some v
       | none => dget d k) := by
  induction kvs generalizing d with
  | nil => simp [lastVal]
  | cons p kvs ih =>
    rw [List.foldl_cons, ih, lastVal_cons]
    cases h : lastVal kvs k with
    | some v => simp
    | none =>
      simp only [dget_dinsert]
      by_cases hk : k = p.1
      · simp [hk, beq_iff_eq]
      · have : ¬ (p.1 == k) = true := by simp [beq_iff_eq]; exact fun he => hk he.symm
        simp [hk, this]

theorem foldl_dinsert_ne_nil (kvs : List (String × String)) (d : Blk) (h : d ≠ []) :
    kvs.foldl (fun d p => dinsert d p.1 p.2) d ≠ [] := by
  induction kvs generalizing d with
  | nil => simpa
  | cons p kvs ih => exact ih _ (dinsert_ne_nil _ _ _)

theorem blockOf_ne_nil (sec : String × List (String × String)) : blockOf sec ≠ [] :=
  foldl_dinsert_ne_nil _ _ (by simp)

theorem blockOf_isEmpty (sec : String × List (String × String)) :
    (blockOf sec).isEmpty = false := by
  cases hb : blockOf sec with
  | nil => exact absurd hb (blockOf_ne_nil sec)
  | cons x xs => rfl

/-! ## `parse_cfg` refinement lemmas -/

/-- On a line that classifies, the code's loop step agrees with the
classification. -/
theorem cfgStep_classify (st : List Blk × Blk) (raw : String)
    (h : (classifyLine raw).isSome = true) :
    cfgStep st raw = .ok
      (match classifyLine raw with
       | some (some it) => stepItem st it
       | _ => st) := by
  unfold classifyLine at h
  unfold cfgStep classifyLine
  by_cases h1 : ((pyStrip raw == "") || pyStarts (pyStrip raw) "#") = true
  · simp [h1]
  · by_cases h2 : pyStarts (pyStrip raw) "[" = true
    · by_cases h3 : pyEnds (pyStrip raw) "]" = true
      · simp [h1, h2, h3, stepItem]
      · simp [h1, h2, h3] at h
    · cases hs : pySplit (pyStrip raw) '=' with
      | nil => simp [h1, h2, hs] at h
      | cons k rest =>
        cases rest with
        | nil => simp [h1, h2, hs] at h
        | cons v rest2 =>
          cases rest2 with
          | nil => simp [h1, h2, hs, stepItem]
          | cons w rest3 => simp [h1, h2, hs] at h

/-- On a file whose lines all classify, the code's fold agrees with the
fold of the classified items. -/
theorem foldlM_cfgStep (lines : List String) (st : List Blk × Blk)
    (h : ∀ l ∈ lines, (classifyLine l).isSome = true) :
    lines.foldlM cfgStep st = .ok ((itemsOf lines).foldl stepItem st) := by
  induction lines generalizing st with
  | nil => rfl
  | cons l ls ih =>
    have hl : (classifyLine l).isSome = true := h l (by simp)
    have hls : ∀ x ∈ ls, (classifyLine x).isSome = true := fun x hx => h x (by simp [hx])
    rw [List.foldlM_cons, cfgStep_classify st l hl]
    cases hc : classifyLine l with
    | none => rw [hc] at hl; simp at hl
    | some o =>
      cases o with
      | none =>
        have hit : itemsOf (l :: ls) = itemsOf ls := by
          simp [itemsOf, List.filterMap_cons, hc]
        rw [hit]
        show ls.foldlM cfgStep st = Except.ok ((itemsOf ls).foldl stepItem st)
        exact ih st hls
      | some it =>
        have hit : itemsOf (l :: ls) = it :: itemsOf ls := by
          simp [itemsOf, List.filterMap_cons, hc]
        rw [hit]
        show ls.foldlM cfgStep (stepItem st it) =
          Except.ok ((it :: itemsOf ls).foldl stepItem st)
        rw [List.foldl_cons]
        exact ih (stepItem st it) hls

/-- The parser-state fold over classified items computes the sections. -/
theorem cfgFinish_foldl_sections (rest : List CfgItem) :
    ∀ (blocks : List Blk) (t : String) (acc : List (String × String)),
    cfgFinish (rest.foldl stepItem (blocks, blockOf (t, acc))) =
      blocks ++ (sectionsGo t acc rest).map blockOf := by
  induction rest with
  | nil =>
    intro blocks t acc
    simp [cfgFinish, sectionsGo, blockOf_isEmpty]
  | cons it rest ih =>
    intro blocks t acc
    cases it with
    | header t' =>
      rw [List.foldl_cons]
      have hb := blockOf_isEmpty (t, acc)
      have hs : stepItem (blocks, blockOf (t, acc)) (.header t') =
          (blocks ++ [blockOf (t, acc)], blockOf (t', [])) := by
        show (if (blockOf (t, acc)).isEmpty then blocks else blocks ++ [blockOf (t, acc)],
          ([("type", t')] : Blk)) = _
        rw [hb]
        rfl
      rw [hs, ih]
      simp [sectionsGo]
    | kv k v =>
      rw [List.foldl_cons]
      have hs : stepItem (blocks, blockOf (t, acc)) (.kv k v) =
          (blocks, blockOf (t, acc ++ [(k, v)])) := by
        show (blocks, dinsert (blockOf (t, acc)) k v) = _
        rw [show blockOf (t, acc ++ [(k, v)]) = dinsert (blockOf (t, acc)) k v by
          simp [blockOf, List.foldl_append]]
      rw [hs, ih]
      simp [sectionsGo]

/-- Refinement: on a well-formed config file, `parse_cfg` returns exactly
the blocks of the file's sections, in file order. -/
theorem parse_cfg_eq_finish (lines : List String)
    (h1 : ∀ l ∈ lines, (classifyLine l).isSome = true) :
    parse_cfg lines = .ok (cfgFinish ((itemsOf lines).foldl stepItem ([], []))) := by
  unfold parse_cfg
  rw [foldlM_cfgStep lines ([], []) h1]
  rfl

theorem parse_cfg_wf (lines : List String) (h : WellFormedCfg lines) :
    parse_cfg lines = .ok ((sectionsOf lines).map blockOf) := by
  obtain ⟨h1, h2⟩ := h
  rw [parse_cfg_eq_finish lines h1]
  suffices hs : cfgFinish ((itemsOf lines).foldl stepItem ([], [])) =
      (sectionsOf lines).map blockOf by rw [hs]
  cases hi : itemsOf lines with
  | nil => simp [sectionsOf, hi, cfgFinish]
  | cons it rest =>
    cases it with
    | header t =>
      have hstep : stepItem ([], []) (.header t) = ([], blockOf (t, [])) := rfl
      rw [List.foldl_cons, hstep]
      have hgo := cfgFinish_foldl_sections rest [] t []
      simp only [List.nil_append] at hgo
      simp [hgo, sectionsOf, hi]
    | kv k v =>
      rw [hi] at h2
      simp [headed] at h2

/-- A benign line never raises. -/
theorem cfgStep_benign (st : List Blk × Blk) (raw : String)
    (h : lineBenign raw = true) : ∃ st', cfgStep st raw = .ok st' := by
  unfold cfgStep
  unfold lineBenign at h
  by_cases h1 : ((pyStrip raw == "") || pyStarts (pyStrip raw) "#") = true
  · exact ⟨st, by rw [if_pos h1]⟩
  · by_cases h2 : pyStarts (pyStrip raw) "[" = true
    · exact ⟨_, by rw [if_neg h1, if_pos h2]⟩
    · cases hs : pySplit (pyStrip raw) '=' with
      | nil => simp [h1, h2, hs] at h
      | cons k rest =>
        cases rest with
        | nil => simp [h1, h2, hs] at h
        | cons v rest2 =>
          cases rest2 with
          | nil => exact ⟨_, by rw [if_neg h1, if_neg h2, hs]⟩
          | cons w rest3 => simp [h1, h2, hs] at h

/-- A file of benign lines never raises. -/
theorem parse_cfg_benign (lines : List String)
    (h : ∀ l ∈ lines, lineBenign l = true) :
    ∃ bs, parse_cfg lines = .ok bs := by
  suffices hf : ∀ st, ∃ st', lines.foldlM cfgStep st = .ok st' by
    obtain ⟨st', hst⟩ := hf ([], [])
    exact ⟨cfgFinish st', by unfold parse_cfg; rw [hst]; rfl⟩
  induction lines with
  | nil => exact fun st => ⟨st, rfl⟩
  | cons l ls ih =>
    intro st
    obtain ⟨st1, h1⟩ := cfgStep_benign st l (h l (by simp))
    obtain ⟨st', hst⟩ := ih (fun x hx => h x (by simp [hx])) st1
    exact ⟨st', by rw [List.foldlM_cons, h1]; simpa using hst⟩

/-! ## Driver lemmas: exceptions are caught -/

/-- `convert` catches every exception of its `try:` block. -/
theorem convert_rv_ok (oc : ConvOracle) (fs : FS) (key : String) :
    ∃ b, (convert oc fs key).rv = .ok b := by
  unfold convert
  cases hm : findModel key with
  | none => exact ⟨false, rfl⟩
  | some mi =>
    dsimp only
    by_cases h1 : FS.hasFile fs mi.cfg = false
    · rw [if_pos h1]; exact ⟨false, rfl⟩
    · rw [if_neg h1]
      by_cases h2 : FS.hasFile fs mi.weights = false
      · rw [if_pos h2]; exact ⟨false, rfl⟩
      · rw [if_neg h2]
        cases ht : (convertTry oc fs mi).rv with
        | error e => exact ⟨false, rfl⟩
        | ok b => exact ⟨b, rfl⟩

/-- `quantize_onnx_model` catches every exception of its `try:` block. -/
theorem quantize_rv_ok (oq : QuantOracle) (fs : FS) (inp outp : String) :
    ∃ b, (quantize_onnx_model oq fs inp outp).rv = .ok b := by
  unfold quantize_onnx_model
  by_cases h1 : FS.hasFile fs inp = false
  · rw [if_pos h1]; exact ⟨false, rfl⟩
  · rw [if_neg h1]
    dsimp only
    cases ht : (quantTry oq fs inp outp).rv with
    | error e => exact ⟨false, rfl⟩
    | ok b => exact ⟨b, rfl⟩

/-- `export_int8_model` catches every exception of its `try:` block. -/
theorem export_int8_rv_ok (ou : UltraOracle) (fs : FS) (p : String) :
    ∃ b, (export_int8_model ou fs p).rv = .ok b := by
  unfold export_int8_model
  by_cases h1 : FS.hasFile fs p = false
  · rw [if_pos h1]; exact ⟨false, rfl⟩
  · rw [if_neg h1]
    dsimp only
    cases ht : (exportInt8Try ou fs p).rv with
    | error e => exact ⟨false, rfl⟩
    | ok b => exact ⟨b, ht⟩

/-- The `except` arm of `convert` returns `False` and prints the
exception text after the `try:` block's trace. -/
theorem convert_catch (oc : ConvOracle) (fs : FS) (key : String) (mi : MInfo) (e : String)
    (hm : findModel key = some mi)
    (hc : FS.hasFile fs mi.cfg = true) (hw : FS.hasFile fs mi.weights = true)
    (ht : (convertTry oc fs mi).rv = .error e) :
    convert oc fs key =
      ⟨.ok false, (convertTry oc fs mi).fs,
        Ev.out ("Converting " ++ mi.name) ::
          ((convertTry oc fs mi).log ++ [.out ("❌ Conversion failed: " ++ e)])⟩ := by
  unfold convert
  rw [hm]
  dsimp only
  rw [if_neg (by simp [hc]), if_neg (by simp [hw])]
  simp only [ht]

/-- The `except` arm of `quantize_onnx_model`. -/
theorem quantize_catch (oq : QuantOracle) (fs : FS) (inp outp : String) (e : String)
    (hc : FS.hasFile fs inp = true)
    (ht : (quantTry oq fs inp outp).rv = .error e) :
    quantize_onnx_model oq fs inp outp =
      ⟨.ok false, (quantTry oq fs inp outp).fs,
        Ev.out ("📦 输入模型: " ++ inp) ::
          ((quantTry oq fs inp outp).log ++ [.out ("❌ 量化失败: " ++ e)])⟩ := by
  unfold quantize_onnx_model
  rw [if_neg (by simp [hc])]
  simp only [ht]

/-- The `except` arm of `export_int8_model`. -/
theorem export_int8_catch (ou : UltraOracle) (fs : FS) (p : String) (e : String)
    (hc : FS.hasFile fs p = true)
    (ht : (exportInt8Try ou fs p).rv = .error e) :
    export_int8_model ou fs p =
      ⟨.ok false, (exportInt8Try ou fs p).fs,
        (exportInt8Try ou fs p).log ++ [.out ("❌ 导出失败: " ++ e)]⟩ := by
  unfold export_int8_model
  rw [if_neg (by simp [hc])]
  simp only [ht]

/-- In `export_osnet_to_onnx` an exception of the export call propagates:
there is no surrounding `try:`. -/
theorem osnet_export_propagates (oo : OsnetOracle) (fs : FS) (ck : FData) (e : String)
    (h1 : oo.buildModel = .ok ())
    (h5 : FS.lookup fs "models/osnet_ain_x1_0_imagenet.pth" = some ck)
    (h2 : oo.torchLoad ck = .ok ()) (h3 : oo.forwardPass = .ok ())
    (h4 : oo.torchExport = .error e) :
    (export_osnet_to_onnx oo fs).1 = .error e := by
  unfold export_osnet_to_onnx
  rw [h1]
  dsimp only
  rw [h5]
  dsimp only
  rw [h2]
  dsimp only
  rw [h3]
  dsimp only
  rw [h4]

/-! ## Driver lemmas: every model is visited -/

/-- The log of `convert` always opens with the model's banner. -/
theorem convert_banner_mem (oc : ConvOracle) (fs : FS) (key : String) (mi : MInfo)
    (hm : findModel key = some mi) :
    Ev.out ("Converting " ++ mi.name) ∈ (convert oc fs key).log := by
  unfold convert
  rw [hm]
  dsimp only
  by_cases h1 : FS.hasFile fs mi.cfg = false
  · rw [if_pos h1]; simp
  · rw [if_neg h1]
    by_cases h2 : FS.hasFile fs mi.weights = false
    · rw [if_pos h2]; simp
    · rw [if_neg h2]
      cases ht : (convertTry oc fs mi).rv <;> simp

/-- `convert_all` and its loop produce the same trace. -/
theorem convert_all_log (oc : ConvOracle) (fs : FS) :
    (convert_all oc fs).2.2 = (convertAllGo oc ["1", "2", "3"] fs).2.2 := by
  unfold convert_all
  rcases hr : convertAllGo oc ["1", "2", "3"] fs with ⟨rv, fs', log⟩
  cases rv <;> simp

/-- Every key of the list is visited by `convert_all`'s loop — also after
earlier failures. -/
theorem convertAllGo_banner (oc : ConvOracle) (ks : List String) :
    ∀ (fs : FS) (k : String) (mi : MInfo), k ∈ ks → findModel k = some mi →
    Ev.out ("Converting " ++ mi.name) ∈ (convertAllGo oc ks fs).2.2 := by
  induction ks with
  | nil => intro fs k mi hk; cases hk
  | cons k0 ks ih =>
    intro fs k mi hk hm
    obtain ⟨b, hb⟩ := convert_rv_ok oc fs k0
    rw [List.mem_cons] at hk
    unfold convertAllGo
    simp only [hb]
    rcases hrec : convertAllGo oc ks (convert oc fs k0).fs with ⟨rv', fs', log'⟩
    rcases hk with hk | hk
    · subst hk
      have hmem := convert_banner_mem oc fs k mi hm
      cases rv' <;> simp [List.mem_append, hmem]
    · have hmem := ih (convert oc fs k0).fs k mi hk hm
      rw [hrec] at hmem
      cases rv' <;> simp [List.mem_append] <;> exact Or.inr hmem

/-- The log of `quantize_onnx_model` always opens with the input line. -/
theorem quantize_log_head (oq : QuantOracle) (fs : FS) (inp outp : String) :
    ∃ tl, (quantize_onnx_model oq fs inp outp).log =
      Ev.out ("📦 输入模型: " ++ inp) :: tl := by
  unfold quantize_onnx_model
  by_cases h1 : FS.hasFile fs inp = false
  · rw [if_pos h1]; exact ⟨_, rfl⟩
  · rw [if_neg h1]
    dsimp only
    cases ht : (quantTry oq fs inp outp).rv
    · exact ⟨_, rfl⟩
    · exact ⟨_, rfl⟩

/-- Every selected model is visited by the quantization loop — it is
either reported as skipped or opened for quantization, also after earlier
failures. -/
theorem quantLoop_covers (oq : QuantOracle) (ns : List String) :
    ∀ (fs : FS) (succ : Nat) (n : String), n ∈ ns →
    Ev.out ("⏭️ 跳过 (已存在): " ++ quantOutName n) ∈ (quantLoop oq ns fs succ).log ∨
    Ev.out ("📦 输入模型: " ++ n) ∈ (quantLoop oq ns fs succ).log := by
  induction ns with
  | nil => intro fs succ n hn; cases hn
  | cons n0 ns ih =>
    intro fs succ n hn
    rw [List.mem_cons] at hn
    unfold quantLoop
    rcases hn with hn | hn
    · subst hn
      by_cases hout : FS.hasFile fs (quantOutName n) = true
      · rw [if_pos hout]; left; simp
      · rw [if_neg hout]
        obtain ⟨tl, htl⟩ := quantize_log_head oq fs n (quantOutName n)
        right
        simp [htl]
    · by_cases hout : FS.hasFile fs (quantOutName n0) = true
      · rw [if_pos hout]
        rcases ih fs succ n hn with h | h
        · left; simp [h]
        · right; simp [h]
      · rw [if_neg hout]
        rcases ih (quantize_onnx_model oq fs n0 (quantOutName n0)).fs
            (match (quantize_onnx_model oq fs n0 (quantOutName n0)).rv with
             | .ok true => succ + 1
             | _ => succ) n hn with h | h
        · left; simp [h]
        · right; simp [h]

/-- Every listed checkpoint is visited by `export_int8_models.main`'s
loop — also after earlier failures. -/
theorem exportMainGo_desc (ou : UltraOracle) (ms : List (String × String)) :
    ∀ (fs : FS) (pd : String × String), pd ∈ ms →
    Ev.out ("🎯 " ++ pd.2) ∈ (exportMainGo ou ms fs).2.2.2 := by
  induction ms with
  | nil => intro fs pd hpd; cases hpd
  | cons q ms ih =>
    intro fs pd hpd
    rw [List.mem_cons] at hpd
    obtain ⟨p, desc⟩ := q
    unfold exportMainGo
    rcases hpd with hpd | hpd
    · subst hpd
      by_cases hf : FS.hasFile fs p = true
      · rw [if_pos hf]; simp
      · rw [if_neg hf]; simp
    · by_cases hf : FS.hasFile fs p = true
      · rw [if_pos hf]
        have := ih (export_int8_model ou fs p).fs pd hpd
        simp [List.mem_append, this]
      · rw [if_neg hf]
        have := ih fs pd hpd
        simp [this]

/-! ## Driver lemmas: missing-input branches -/

/-- `convert` on a missing config file: message, `False`, state unchanged,
nothing else done. -/
theorem convert_missing_cfg (oc : ConvOracle) (fs : FS) (key : String) (mi : MInfo)
    (hm : findModel key = some mi) (hc : FS.hasFile fs mi.cfg = false) :
    convert oc fs key =
      ⟨.ok false, fs,
        [.out ("Converting " ++ mi.name), .out ("❌ Config file not found: " ++ mi.cfg)]⟩ := by
  unfold convert
  rw [hm]
  dsimp only
  rw [if_pos hc]

/-- `convert` on a missing weights file. -/
theorem convert_missing_weights (oc : ConvOracle) (fs : FS) (key : String) (mi : MInfo)
    (hm : findModel key = some mi) (hc : FS.hasFile fs mi.cfg = true)
    (hw : FS.hasFile fs mi.weights = false) :
    convert oc fs key =
      ⟨.ok false, fs,
        [.out ("Converting " ++ mi.name), .out ("❌ Weights file not found: " ++ mi.weights)]⟩ := by
  unfold convert
  rw [hm]
  dsimp only
  rw [if_neg (by simp [hc]), if_pos hw]

/-- `export_int8_model` on a missing checkpoint. -/
theorem export_int8_missing (ou : UltraOracle) (fs : FS) (p : String)
    (hp : FS.hasFile fs p = false) :
    export_int8_model ou fs p = ⟨.ok false, fs, [.out ("❌ 模型文件不存在: " ++ p)]⟩ := by
  unfold export_int8_model
  rw [if_pos hp]

/-! ## Quantization-loop lemmas -/

/-- If the input is absent or the library call raises on its contents,
`quantize_onnx_model` changes nothing and reports failure. -/
theorem quantize_unchanged (oq : QuantOracle) (fs : FS) (inp outp : String)
    (h : ∀ d, FS.lookup fs inp = some d → ∃ e, oq.quantizeDyn d = .error e) :
    (quantize_onnx_model oq fs inp outp).fs = fs ∧
    (quantize_onnx_model oq fs inp outp).rv = .ok false := by
  unfold quantize_onnx_model quantTry
  cases hl : FS.lookup fs inp with
  | none =>
    have hh : FS.hasFile fs inp = false := by simp [FS.hasFile, hl]
    rw [if_pos hh]
    exact ⟨rfl, rfl⟩
  | some d =>
    obtain ⟨e, he⟩ := h d hl
    have hh : ¬ FS.hasFile fs inp = false := by simp [FS.hasFile, hl]
    rw [if_neg hh]
    dsimp only
    simp only [he]
    refine ⟨?_, ?_⟩ <;> trivial

/-- When the library call succeeds, `quantize_onnx_model` writes exactly
the output file (even when the zero-size check then raises). -/
theorem quantize_write (oq : QuantOracle) (fs : FS) (inp outp : String) (d qd : FData)
    (hl : FS.lookup fs inp = some d) (hq : oq.quantizeDyn d = .ok qd) :
    (quantize_onnx_model oq fs inp outp).fs = fs.write outp qd := by
  unfold quantize_onnx_model quantTry
  have hh : ¬ FS.hasFile fs inp = false := by simp [FS.hasFile, hl]
  rw [if_neg hh, hl]
  dsimp only
  simp only [hq]
  rw [FS.lookup_write_self]
  dsimp only
  by_cases hsz : (qd.size == 0) = true
  · rw [if_pos hsz]
  · rw [if_neg hsz]

/-- Second-run loop: when every selected input's output already exists or
its quantization deterministically fails, the loop changes nothing and
succeeds on nothing. -/
theorem quantLoop_fixed (oq : QuantOracle) (ns : List String) :
    ∀ (fs : FS) (succ : Nat),
    (∀ n ∈ ns, FS.hasFile fs (quantOutName n) = true ∨
       (∀ d, FS.lookup fs n = some d → ∃ e, oq.quantizeDyn d = .error e)) →
    (quantLoop oq ns fs succ).fs = fs ∧ (quantLoop oq ns fs succ).succ = succ := by
  induction ns with
  | nil => exact fun fs succ h => ⟨rfl, rfl⟩
  | cons n0 ns ih =>
    intro fs succ h
    have h0 := h n0 (by simp)
    have ht := fun n hn => h n (List.mem_cons_of_mem n0 hn)
    unfold quantLoop
    by_cases hout : FS.hasFile fs (quantOutName n0) = true
    · rw [if_pos hout]
      obtain ⟨h1, h2⟩ := ih fs succ ht
      exact ⟨h1, h2⟩
    · rw [if_neg hout]
      have hq := h0.resolve_left hout
      obtain ⟨hfs, hrv⟩ := quantize_unchanged oq fs n0 (quantOutName n0) hq
      dsimp only
      simp only [hfs, hrv]
      obtain ⟨h1, h2⟩ := ih fs succ ht
      exact ⟨h1, h2⟩

/-- First-run loop: only `"_int8"`-named outputs are added, nothing is
removed, the contents of `"_int8"`-free names are untouched, and
afterwards every processed input either has its output present or fails
deterministically. -/
theorem quantLoop_run1 (oq : QuantOracle) (ns : List String) :
    ∀ (fs : FS) (succ : Nat), (∀ n ∈ ns, pyHasSub n "_int8" = false) →
      ((∀ p, pyHasSub p "_int8" = false →
          FS.lookup (quantLoop oq ns fs succ).fs p = FS.lookup fs p) ∧
       (∀ p, FS.hasFile fs p = true → FS.hasFile (quantLoop oq ns fs succ).fs p = true) ∧
       (∃ extra, (quantLoop oq ns fs succ).fs.map (·.1) = fs.map (·.1) ++ extra ∧
          ∀ x ∈ extra, pyHasSub x "_int8" = true) ∧
       (∀ n ∈ ns, FS.hasFile (quantLoop oq ns fs succ).fs (quantOutName n) = true ∨
          (∀ d, FS.lookup (quantLoop oq ns fs succ).fs n = some d →
            ∃ e, oq.quantizeDyn d = .error e))) := by
  induction ns with
  | nil =>
    intro fs succ hns
    exact ⟨fun p hp => rfl, fun p hp => hp, ⟨[], by simp [quantLoop], by simp⟩,
      fun n hn => absurd hn (by simp)⟩
  | cons n0 ns ih =>
    intro fs succ hns
    have hn0 : pyHasSub n0 "_int8" = false := hns n0 (by simp)
    have hns' : ∀ n ∈ ns, pyHasSub n "_int8" = false :=
      fun n hn => hns n (List.mem_cons_of_mem n0 hn)
    unfold quantLoop
    by_cases hout : FS.hasFile fs (quantOutName n0) = true
    · rw [if_pos hout]
      obtain ⟨c1, c2, c3, c4⟩ := ih fs succ hns'
      refine ⟨c1, c2, c3, ?_⟩
      intro n hn
      rw [List.mem_cons] at hn
      rcases hn with hn | hn
      · subst hn
        exact Or.inl (c2 _ hout)
      · exact c4 n hn
    · rw [if_neg hout]
      dsimp only
      cases hl : FS.lookup fs n0 with
      | none =>
        have hun := quantize_unchanged oq fs n0 (quantOutName n0)
          (fun d hd => by rw [hl] at hd; cases hd)
        simp only [hun.1, hun.2]
        obtain ⟨c1, c2, c3, c4⟩ := ih fs succ hns'
        refine ⟨c1, c2, c3, ?_⟩
        intro n hn
        rw [List.mem_cons] at hn
        rcases hn with hn | hn
        · subst hn
          refine Or.inr (fun d hd => ?_)
          rw [c1 n hn0, hl] at hd
          cases hd
        · exact c4 n hn
      | some d =>
        cases hq : oq.quantizeDyn d with
        | error e =>
          have hun := quantize_unchanged oq fs n0 (quantOutName n0)
            (fun d' hd' => by rw [hl] at hd'; cases hd'; exact ⟨e, hq⟩)
          simp only [hun.1, hun.2]
          obtain ⟨c1, c2, c3, c4⟩ := ih fs succ hns'
          refine ⟨c1, c2, c3, ?_⟩
          intro n hn
          rw [List.mem_cons] at hn
          rcases hn with hn | hn
          · subst hn
            refine Or.inr (fun d' hd' => ?_)
            rw [c1 n hn0, hl] at hd'
            cases hd'
            exact ⟨e, hq⟩
          · exact c4 n hn
        | ok qd =>
          have hw := quantize_write oq fs n0 (quantOutName n0) d qd hl hq
          simp only [hw]
          obtain ⟨c1, c2, c3, c4⟩ :=
            ih (fs.write (quantOutName n0) qd)
              (match (quantize_onnx_model oq fs n0 (quantOutName n0)).rv with
               | .ok true => succ + 1
               | _ => succ) hns'
          have houtne : ∀ p : String, pyHasSub p "_int8" = false → p ≠ quantOutName n0 := by
            intro p hp he
            rw [he] at hp
            rw [pyHasSub_quantOutName n0] at hp
            cases hp
          refine ⟨?_, ?_, ?_, ?_⟩
          · intro p hp
            rw [c1 p hp, FS.lookup_write_ne fs (quantOutName n0) p qd (houtne p hp)]
          · intro p hp
            exact c2 p (FS.hasFile_write_mono fs (quantOutName n0) p qd hp)
          · obtain ⟨extra, he, hex⟩ := c3
            rcases FS.names_write fs (quantOutName n0) qd with hn | hn
            · exact ⟨extra, by rw [he, hn], hex⟩
            · refine ⟨quantOutName n0 :: extra, ?_, ?_⟩
              · rw [he, hn]
                simp
              · intro x hx
                rw [List.mem_cons] at hx
                rcases hx with hx | hx
                · subst hx
                  exact pyHasSub_quantOutName n0
                · exact hex x hx
          · intro n hn
            rw [List.mem_cons] at hn
            rcases hn with hn | hn
            · subst hn
              exact Or.inl (c2 _ (FS.hasFile_write_self fs (quantOutName n) qd))
            · exact c4 n hn

/-- `main` of the quantization script is idempotent on the filesystem:
a second run over the directory the first run left behind writes nothing
and succeeds on nothing. -/
theorem quantMain_idem (oq : QuantOracle) (fs : FS) :
    (quantMain oq (quantMain oq fs).fs).fs = (quantMain oq fs).fs ∧
    (quantMain oq (quantMain oq fs).fs).succ = 0 := by
  unfold quantMain
  by_cases hsel : ((fs.map (·.1)).filter selName).isEmpty = true
  · rw [if_pos hsel]
    dsimp only
    rw [if_pos hsel]
    exact ⟨rfl, rfl⟩
  · rw [if_neg hsel]
    have hsub : ∀ n ∈ (fs.map (·.1)).filter selName, pyHasSub n "_int8" = false := by
      intro n hn
      rw [List.mem_filter] at hn
      have := hn.2
      unfold selName at this
      cases hh : pyHasSub n "_int8"
      · rfl
      · rw [hh] at this
        simp at this
    obtain ⟨c1, c2, ⟨extra, he, hex⟩, c4⟩ :=
      quantLoop_run1 oq ((fs.map (·.1)).filter selName) fs 0 hsub
    have hextra : extra.filter selName = [] := by
      rw [List.filter_eq_nil_iff]
      intro x hx
      have := hex x hx
      simp [selName, this]
    have hsel1 : ((quantLoop oq ((fs.map (·.1)).filter selName) fs 0).fs.map (·.1)).filter
        selName = (fs.map (·.1)).filter selName := by
      rw [he, List.filter_append, hextra, List.append_nil]
    dsimp only
    rw [hsel1, if_neg hsel]
    exact quantLoop_fixed oq ((fs.map (·.1)).filter selName)
      (quantLoop oq ((fs.map (·.1)).filter selName) fs 0).fs 0 c4

/-! ## Success paths: a reported success leaves the output file behind -/

/-- `quantize_onnx_model` reports success only after writing the output
and passing the (accidental) zero-size division: the output file exists
with non-zero size.  No assumption on the library call is needed. -/
theorem quantTry_ok (oq : QuantOracle) (fs : FS) (inp outp : String) :
    (quantTry oq fs inp outp).rv = .ok true →
    ∃ qd, FS.lookup (quantTry oq fs inp outp).fs outp = some qd ∧ 0 < qd.size := by
  unfold quantTry
  cases hl : FS.lookup fs inp with
  | none => intro h; simp at h
  | some d =>
    dsimp only
    cases hq : oq.quantizeDyn d with
    | error e => intro h; simp at h
    | ok qd =>
      dsimp only
      rw [FS.lookup_write_self]
      dsimp only
      by_cases hsz : (qd.size == 0) = true
      · rw [if_pos hsz]
        intro h
        simp at h
      · rw [if_neg hsz]
        intro h
        refine ⟨qd, ?_, ?_⟩
        · exact FS.lookup_write_self fs outp qd
        · have : qd.size ≠ 0 := by simpa using hsz
          exact Nat.pos_of_ne_zero this

/-- A `True` return of `quantize_onnx_model` comes from its `try:` block. -/
theorem quantize_ok_to_try (oq : QuantOracle) (fs : FS) (inp outp : String) :
    (quantize_onnx_model oq fs inp outp).rv = .ok true →
    (quantTry oq fs inp outp).rv = .ok true ∧
    (quantize_onnx_model oq fs inp outp).fs = (quantTry oq fs inp outp).fs := by
  unfold quantize_onnx_model
  by_cases h1 : FS.hasFile fs inp = false
  · rw [if_pos h1]; intro h; simp at h
  · rw [if_neg h1]
    dsimp only
    cases ht : (quantTry oq fs inp outp).rv with
    | error e => intro h; simp at h
    | ok b =>
      intro h
      have hb : b = true := by simpa using h
      subst hb
      exact ⟨rfl, rfl⟩

/-- `convert`'s `try:` block returns `True` only after the export oracle
wrote the declared output file. -/
theorem convertTry_ok (oc : ConvOracle) (fs : FS) (mi : MInfo) :
    (convertTry oc fs mi).rv = .ok true →
    ∃ m d, oc.torchExport m = .ok d ∧
      FS.lookup (convertTry oc fs mi).fs mi.output = some d := by
  unfold convertTry
  cases h1 : FS.lookup fs mi.cfg with
  | none => intro h; simp at h
  | some d0 =>
    cases d0 with
    | bin bs => intro h; simp at h
    | txt lines =>
      dsimp only
      cases h2 : parse_cfg lines with
      | error e => intro h; simp at h
      | ok blocks =>
        dsimp only
        cases h3 : FS.lookup fs mi.weights with
        | none => intro h; simp at h
        | some wd =>
          dsimp only
          cases h4 : build_model_from_cfg blocks with
          | error e => intro h; simp at h
          | ok m =>
            dsimp only
            cases h5 : oc.torchExport m with
            | error e => intro h; simp at h
            | ok d =>
              dsimp only
              rw [FS.lookup_write_self]
              dsimp only
              cases h6 : oc.onnxCheck d with
              | error e => intro h; simp at h
              | ok u =>
                intro h
                exact ⟨m, d, h5, FS.lookup_write_self fs mi.output d⟩

/-- A `True` return of `convert` comes from its `try:` block. -/
theorem convert_ok_to_try (oc : ConvOracle) (fs : FS) (key : String) (mi : MInfo)
    (hm : findModel key = some mi) :
    (convert oc fs key).rv = .ok true →
    (convertTry oc fs mi).rv = .ok true ∧
    (convert oc fs key).fs = (convertTry oc fs mi).fs := by
  unfold convert
  rw [hm]
  dsimp only
  by_cases h1 : FS.hasFile fs mi.cfg = false
  · rw [if_pos h1]; intro h; simp at h
  · rw [if_neg h1]
    by_cases h2 : FS.hasFile fs mi.weights = false
    · rw [if_pos h2]; intro h; simp at h
    · rw [if_neg h2]
      cases ht : (convertTry oc fs mi).rv with
      | error e => intro h; simp at h
      | ok b =>
        intro h
        have hb : b = true := by simpa using h
        subst hb
        exact ⟨rfl, rfl⟩

/-- `export_int8_model`'s `try:` block, when the library writes the file
it reports, leaves the written contents at the declared target path on a
`True` return. -/
theorem exportInt8Try_ok (ou : UltraOracle) (fs : FS) (p : String)
    (hx : ∀ x pa od, ou.exportCall x = .ok (pa, od) → ∃ dd, od = some dd) :
    (exportInt8Try ou fs p).rv = .ok true →
    ∃ x pa dd, ou.exportCall x = .ok (pa, some dd) ∧
      FS.lookup (exportInt8Try ou fs p).fs (int8Target p) = some dd := by
  unfold exportInt8Try
  cases h1 : FS.lookup fs p with
  | none => intro h; simp at h
  | some d =>
    dsimp only
    cases h2 : ou.loadModel d with
    | error e => intro h; simp at h
    | ok u =>
      dsimp only
      cases h3 : ou.exportCall d with
      | error e => intro h; simp at h
      | ok pr =>
        obtain ⟨epath, od⟩ := pr
        obtain ⟨dd, hdd⟩ := hx d epath od h3
        subst hdd
        dsimp only
        rw [FS.lookup_write_self]
        dsimp only
        intro h
        exact ⟨d, epath, dd, h3, FS.lookup_write_self _ (int8Target p) dd⟩

/-- A `True` return of `export_int8_model` comes from its `try:` block. -/
theorem export_int8_ok_to_try (ou : UltraOracle) (fs : FS) (p : String) :
    (export_int8_model ou fs p).rv = .ok true →
    (exportInt8Try ou fs p).rv = .ok true ∧
    (export_int8_model ou fs p).fs = (exportInt8Try ou fs p).fs := by
  unfold export_int8_model
  by_cases h1 : FS.hasFile fs p = false
  · rw [if_pos h1]; intro h; simp at h
  · rw [if_neg h1]
    dsimp only
    cases ht : (exportInt8Try ou fs p).rv with
    | error e => intro h; simp at h
    | ok b =>
      intro h
      have hb : b = true := by
        have hbt := ht.symm.trans h
        simpa using hbt
      subst hb
      exact ⟨rfl, rfl⟩

/-! ## Byte-count lemmas for the weights reader -/

theorem chunks4_length (bs : List Nat) : (chunks4 bs).length = bs.length / 4 := by
  induction bs using chunks4.induct with
  | case1 a b c d rest ih =>
    simp only [chunks4, List.length_cons]
    omega
  | case2 bs h =>
    match bs, h with
    | [], _ => simp [chunks4]
    | [a], _ => simp [chunks4]
    | [a, b], _ => simp [chunks4]
    | [a, b, c], _ => simp [chunks4]
    | a :: b :: c :: d :: rest, h => exact absurd rfl (h a b c d rest)

theorem wordsOf_length (bs : List Nat) : (wordsOf bs).length = bs.length / 4 := by
  rw [wordsOf, List.length_map, chunks4_length]

/-! # Claims -/

/-- C1: on a config file whose bracketed section headers and `key = value`
lines are well-formed, `parse_cfg` returns exactly the blocks of the
file's sections in file order — blank lines and `#`-comments skipped, a
new block at every `[`-line holding the bracketed text (stripped) under
`"type"`, and every subsequent `key = value` line recorded in the current
block with key and value stripped. -/
theorem C1_parse_cfg_wellformed (lines : List String) (h : WellFormedCfg lines) :
    parse_cfg lines = .ok ((sectionsOf lines).map blockOf) :=
  parse_cfg_wf lines h

/-- C1 witness: a concrete well-formed config file is parsed as the claim
describes. -/
theorem C1_witness :
    parse_cfg ["[net]", "# comment", "", "width = 320", "[convolutional]", "size=3"] =
      .ok [[("type", "net"), ("width", "320")], [("type", "convolutional"), ("size", "3")]] := by
  have h := C1_parse_cfg_wellformed
    ["[net]", "# comment", "", "width = 320", "[convolutional]", "size=3"]
    ⟨by decide, by decide⟩
  rw [h]
  rfl

/-- C2 counterexample: a file meeting the bracketed-header requirement but
holding a data line without `=` makes `parse_cfg` raise `ValueError` —
the claim that `parse_cfg` returns a block list without raising
regardless of the content of data lines is false. -/
theorem C2_counterexample :
    parse_cfg ["[net]", "hello"] = .error "ValueError" ∧
    ∀ bs, parse_cfg ["[net]", "hello"] ≠ .ok bs := by
  refine ⟨rfl, fun bs h => ?_⟩
  rw [show parse_cfg ["[net]", "hello"] = .error "ValueError" from rfl] at h
  cases h

/-- C2 (amended): `parse_cfg` enforces exactly one invariant on
non-header, non-comment, non-blank lines — splitting into two parts on
`=`; on every file whose lines are blank, comments, `[`-initial, or split
into exactly two parts on `=`, it returns a block list without raising,
with no validation of field names or value types. -/
theorem C2_amended (lines : List String) (h : ∀ l ∈ lines, lineBenign l = true) :
    ∃ bs, parse_cfg lines = .ok bs :=
  parse_cfg_benign lines h

/-- C2 witness: a file with an unclosed header, no leading section and
arbitrary field content parses without raising. -/
theorem C2_witness :
    ∃ bs, parse_cfg ["x = [y", "[net", "!! = ??", "#", ""] = .ok bs :=
  C2_amended ["x = [y", "[net", "!! = ??", "#", ""] (by decide)

/-- C3: on a weights file of at least 20 bytes, `load_weights` reads
exactly 5 leading 32-bit values as a header — the words of the first 20
bytes — and returns the entire remainder of the file as a flat sequence
of 32-bit values; the header values are discarded and are not part of the
returned sequence. -/
theorem C3_load_weights (file : List Nat) (h : 20 ≤ file.length) :
    load_weights file = wordsOf (file.drop 20) ∧
    load_weights_header file = (wordsOf file).take 5 ∧
    (load_weights_header file).length = 5 := by
  have h5 : 5 ≤ (wordsOf file).length := by
    rw [wordsOf_length]
    omega
  have hw5 : ((wordsOf file).take 5).length = 5 := by
    rw [List.length_take]
    omega
  refine ⟨?_, ?_, ?_⟩
  · show (npFromfileAll (npFromfileCount ⟨file, 0⟩ 5).2).1 = wordsOf (file.drop 20)
    unfold npFromfileCount npFromfileAll
    dsimp only
    rw [List.drop_zero, hw5]
  · show ((wordsOf (file.drop 0)).take 5) = (wordsOf file).take 5
    rw [List.drop_zero]
  · show ((wordsOf (file.drop 0)).take 5).length = 5
    rw [List.drop_zero, hw5]

/-- C3 witness: a concrete 28-byte file. -/
theorem C3_witness :
    load_weights (List.range 28) = wordsOf ((List.range 28).drop 20) ∧
    (load_weights_header (List.range 28)).length = 5 := by
  have h := C3_load_weights (List.range 28) (by decide)
  exact ⟨h.1, h.2.2⟩

/-- Every successfully built model has the fixed placeholder layers. -/
theorem build_model_shape (bs : List Blk) (m : SimplifiedYOLOFastest)
    (h : build_model_from_cfg bs = .ok m) :
    m.backbone = [.conv2d 3 64 3 1, .batchNorm2d 64, .relu, .maxPool2d 2 2] ∧
    m.head = .conv2d 64 255 1 0 := by
  unfold build_model_from_cfg at h
  cases bs with
  | nil => cases h
  | cons b0 rest =>
    dsimp only at h
    cases hg : dget b0 "width" with
    | none =>
      rw [hg] at h
      dsimp only at h
      cases h
      exact ⟨rfl, rfl⟩
    | some s =>
      rw [hg] at h
      dsimp only at h
      cases hi : pyToInt s with
      | none => rw [hi] at h; cases h
      | some n =>
        rw [hi] at h
        dsimp only at h
        cases h
        exact ⟨rfl, rfl⟩

/-- C7: `build_model_from_cfg` returns the same hard-coded
Conv–BatchNorm–ReLU–MaxPool backbone with a 1×1 convolution head for
every parsed block list; only the `width` entry of the first block is
read (default 320), and no other block influences the result. -/
theorem C7_build_model (b0 b0' : Blk) (rest rest' : List Blk)
    (hw : dget b0 "width" = dget b0' "width") :
    build_model_from_cfg (b0 :: rest) = build_model_from_cfg (b0' :: rest') ∧
    (∀ m, build_model_from_cfg (b0 :: rest) = .ok m →
      m.backbone = [.conv2d 3 64 3 1, .batchNorm2d 64, .relu, .maxPool2d 2 2] ∧
      m.head = .conv2d 64 255 1 0) ∧
    (dget b0 "width" = none →
      build_model_from_cfg (b0 :: rest) = .ok (mkSimplified 320)) := by
  refine ⟨?_, fun m hm => build_model_shape _ m hm, ?_⟩
  · unfold build_model_from_cfg
    dsimp only
    rw [hw]
  · intro hnone
    unfold build_model_from_cfg
    dsimp only
    rw [hnone]

/-- C7 witness: dropping the convolutional block does not change the
model; a first block without `width` yields the 320 default. -/
theorem C7_witness :
    build_model_from_cfg [[("type", "net"), ("width", "320")], [("type", "convolutional")]] =
      build_model_from_cfg [[("type", "net"), ("width", "320")]] ∧
    build_model_from_cfg [[("type", "net")]] = .ok (mkSimplified 320) := by
  have h1 := C7_build_model [("type", "net"), ("width", "320")]
    [("type", "net"), ("width", "320")] [[("type", "convolutional")]] [] rfl
  have h2 := C7_build_model [("type", "net")] [("type", "net")] [] [] rfl
  exact ⟨h1.1, h2.2.2 (by decide)⟩

/-- C10: on a well-formed config file `parse_cfg` returns the sections'
blocks, and within each block every key that occurs on a `key = value`
line is bound to the stripped value of its final occurrence in that
section. -/
theorem C10_last_value_wins (lines : List String) (h : WellFormedCfg lines) :
    parse_cfg lines = .ok ((sectionsOf lines).map blockOf) ∧
    ∀ sec ∈ sectionsOf lines, ∀ k v, lastVal sec.2 k = some v →
      dget (blockOf sec) k = some v := by
  refine ⟨parse_cfg_wf lines h, ?_⟩
  intro sec hsec k v hlast
  have hd := dget_foldl_dinsert sec.2 [("type", sec.1)] k
  rw [hlast] at hd
  exact hd

/-- C10 witness: a duplicated `width` key keeps the last value. -/
theorem C10_witness :
    dget (blockOf ("net", [("width", "1"), ("width", "2")])) "width" = some "2" := by
  have h := C10_last_value_wins ["[net]", "width=1", "width = 2"] ⟨by decide, by decide⟩
  exact h.2 ("net", [("width", "1"), ("width", "2")]) (by decide) "width" "2" (by decide)

/-- C4: on a valid model key with a missing config or weights file,
`convert` prints a message naming the missing file, returns `False`, and
does nothing else — the filesystem is unchanged and no parsing, loading
or export call happens; likewise `export_int8_model` for a missing
checkpoint. -/
theorem C4_missing_inputs (oc : ConvOracle) (ou : UltraOracle) (fs : FS) (key : String)
    (mi : MInfo) (p : String) :
    (findModel key = some mi → FS.hasFile fs mi.cfg = false →
      convert oc fs key =
        ⟨.ok false, fs,
          [.out ("Converting " ++ mi.name), .out ("❌ Config file not found: " ++ mi.cfg)]⟩ ∧
      ∀ s, Ev.call s ∉ (convert oc fs key).log) ∧
    (findModel key = some mi → FS.hasFile fs mi.cfg = true →
      FS.hasFile fs mi.weights = false →
      convert oc fs key =
        ⟨.ok false, fs,
          [.out ("Converting " ++ mi.name), .out ("❌ Weights file not found: " ++ mi.weights)]⟩ ∧
      ∀ s, Ev.call s ∉ (convert oc fs key).log) ∧
    (FS.hasFile fs p = false →
      export_int8_model ou fs p = ⟨.ok false, fs, [.out ("❌ 模型文件不存在: " ++ p)]⟩ ∧
      ∀ s, Ev.call s ∉ (export_int8_model ou fs p).log) := by
  refine ⟨?_, ?_, ?_⟩
  · intro hm hc
    have he := convert_missing_cfg oc fs key mi hm hc
    exact ⟨he, fun s => by rw [he]; simp⟩
  · intro hm hc hw
    have he := convert_missing_weights oc fs key mi hm hc hw
    exact ⟨he, fun s => by rw [he]; simp⟩
  · intro hp
    have he := export_int8_missing ou fs p hp
    exact ⟨he, fun s => by rw [he]; simp⟩

/-- C4 witness: both drivers on an empty directory. -/
theorem C4_witness :
    convert ocOk [] "1" =
      ⟨.ok false, [],
        [.out ("Converting " ++ "YOLO-Fastest-1.1"),
         .out ("❌ Config file not found: " ++ "models/yolo-fastest-1.1/yolo-fastest-1.1.cfg")]⟩ ∧
    export_int8_model ouOk [] "yolov8n.pt" =
      ⟨.ok false, [], [.out ("❌ 模型文件不存在: " ++ "yolov8n.pt")]⟩ := by
  have h := C4_missing_inputs ocOk ouOk [] "1"
    ⟨"YOLO-Fastest-1.1", "models/yolo-fastest-1.1/yolo-fastest-1.1.cfg",
     "models/yolo-fastest-1.1/yolo-fastest-1.1.weights", "models/yolo-fastest-1.1.onnx"⟩
    "yolov8n.pt"
  refine ⟨?_, (h.2.2 (by rfl)).1⟩
  have h1 := (h.1 (by rfl) (by rfl)).1
  rw [h1]

/-- C5 counterexample: in `export_osnet_official.py` the conversion call
`torch.onnx.export` is not wrapped in `try/except`; with a concrete
oracle whose export raises, the exception propagates out of
`export_osnet_to_onnx` — refuting the claim that in every script no
exception of the conversion call escapes the driver function. -/
theorem C5_counterexample :
    (export_osnet_to_onnx ooErr fsODemo).1 = .error "osnet boom" := rfl

/-- C5 (amended): in `convert`, `quantize_onnx_model` and
`export_int8_model` every exception raised inside the `try:` block —
including the external conversion/quantization call — is caught, its
text printed and a boolean returned, so no exception propagates; in
`export_osnet_official.py` only the `onnx.checker` verification call is
guarded, and an exception of the `torch.onnx.export` call itself
propagates out of `export_osnet_to_onnx`. -/
theorem C5_amended :
    (∀ (oc : ConvOracle) (fs : FS) (key : String), ∃ b, (convert oc fs key).rv = .ok b) ∧
    (∀ (oq : QuantOracle) (fs : FS) (inp outp : String),
      ∃ b, (quantize_onnx_model oq fs inp outp).rv = .ok b) ∧
    (∀ (ou : UltraOracle) (fs : FS) (p : String),
      ∃ b, (export_int8_model ou fs p).rv = .ok b) ∧
    (∀ (oc : ConvOracle) (fs : FS) (key : String) (mi : MInfo) (e : String),
      findModel key = some mi → FS.hasFile fs mi.cfg = true →
      FS.hasFile fs mi.weights = true → (convertTry oc fs mi).rv = .error e →
      (convert oc fs key).rv = .ok false ∧
      Ev.out ("❌ Conversion failed: " ++ e) ∈ (convert oc fs key).log) ∧
    (∀ (oo : OsnetOracle) (fs : FS) (ck : FData) (e : String),
      oo.buildModel = .ok () →
      FS.lookup fs "models/osnet_ain_x1_0_imagenet.pth" = some ck →
      oo.torchLoad ck = .ok () → oo.forwardPass = .ok () → oo.torchExport = .error e →
      (export_osnet_to_onnx oo fs).1 = .error e) := by
  refine ⟨convert_rv_ok, quantize_rv_ok, export_int8_rv_ok, ?_, ?_⟩
  · intro oc fs key mi e hm hc hw ht
    have he := convert_catch oc fs key mi e hm hc hw ht
    rw [he]
    exact ⟨rfl, by simp⟩
  · intro oo fs ck e h1 h5 h2 h3 h4
    exact osnet_export_propagates oo fs ck e h1 h5 h2 h3 h4

/-- C5 witness: with a raising export oracle, the three guarded drivers
return a boolean — `convert` returns `False` and prints the text — while
the osnet export propagates. -/
theorem C5_witness :
    (∃ b, (convert ocErr fsConvDemo "2").rv = .ok b) ∧
    (∃ b, (quantize_onnx_model oqErr fsQDemo "a.onnx.onnx" "a_int8.onnx").rv = .ok b) ∧
    (∃ b, (export_int8_model ouErr fsUDemo "yolov8n.pt").rv = .ok b) ∧
    ((convert ocErr fsConvDemo "2").rv = .ok false ∧
      Ev.out ("❌ Conversion failed: " ++ "torch boom") ∈ (convert ocErr fsConvDemo "2").log) ∧
    (export_osnet_to_onnx ooErr fsODemo).1 = .error "osnet boom" := by
  have h := C5_amended
  refine ⟨h.1 ocErr fsConvDemo "2", h.2.1 oqErr fsQDemo "a.onnx.onnx" "a_int8.onnx",
    h.2.2.1 ouErr fsUDemo "yolov8n.pt", ?_, ?_⟩
  · exact h.2.2.2.1 ocErr fsConvDemo "2"
      ⟨"YOLO-Fastest-XL", "models/yolo-fastest-1.1/yolo-fastest-1.1-xl.cfg",
       "models/yolo-fastest-1.1/yolo-fastest-1.1-xl.weights", "models/yolo-fastest-xl.onnx"⟩
      "torch boom" (by rfl) (by rfl) (by rfl) (by rfl)
  · exact h.2.2.2.2 ooErr fsODemo (FData.bin [0]) "osnet boom" rfl (by rfl) rfl rfl rfl

/-- C6 counterexample: with the config of model "1" missing and the other
models present, `convert_all` records the failure of model "1" and still
performs the later conversions — the XL output file exists afterwards —
refuting the claim that a failure aborts the rest of the run. -/
theorem C6_counterexample :
    (convert ocOk fsConvDemo "1").rv = .ok false ∧
    FS.hasFile (convert_all ocOk fsConvDemo).2.1 "models/yolo-fastest-xl.onnx" = true ∧
    (convert_all ocOk fsConvDemo).1 = .ok false := by
  exact ⟨rfl, by rfl, rfl⟩

/-- C6 (amended): a failure aborts only the failing model's conversion:
each driver's loop visits every model in its list regardless of earlier
failures — `convert_all` prints every model's banner, the INT8 export
loop prints every checkpoint's header, and the quantization loop reaches
every selected model. -/
theorem C6_amended :
    (∀ (oc : ConvOracle) (fs : FS) (key : String) (mi : MInfo),
      findModel key = some mi → key ∈ ["1", "2", "3"] →
      Ev.out ("Converting " ++ mi.name) ∈ (convert_all oc fs).2.2) ∧
    (∀ (ou : UltraOracle) (fs : FS) (pd : String × String), pd ∈ modelsToExport →
      Ev.out ("🎯 " ++ pd.2) ∈ (exportMain ou fs).2.2.2) ∧
    (∀ (oq : QuantOracle) (fs : FS) (n : String),
      n ∈ (fs.map (·.1)).filter selName →
      ¬((fs.map (·.1)).filter selName).isEmpty = true →
      (Ev.out ("⏭️ 跳过 (已存在): " ++ quantOutName n) ∈ (quantMain oq fs).log ∨
       Ev.out ("📦 输入模型: " ++ n) ∈ (quantMain oq fs).log)) := by
  refine ⟨?_, ?_, ?_⟩
  · intro oc fs key mi hm hk
    rw [convert_all_log]
    exact convertAllGo_banner oc ["1", "2", "3"] fs key mi hk hm
  · intro ou fs pd hpd
    exact exportMainGo_desc ou modelsToExport fs pd hpd
  · intro oq fs n hn hne
    unfold quantMain
    rw [if_neg hne]
    exact quantLoop_covers oq ((fs.map (·.1)).filter selName) fs 0 n hn

/-- C6 witness: concrete runs in which a model is still visited. -/
theorem C6_witness :
    Ev.out ("Converting " ++ "YOLO-Fastest-XL") ∈ (convert_all ocOk fsConvDemo).2.2 ∧
    Ev.out ("🎯 " ++ "超轻量检测模型") ∈ (exportMain ouOk fsUDemo).2.2.2 ∧
    (Ev.out ("⏭️ 跳过 (已存在): " ++ quantOutName "a.onnx.onnx") ∈ (quantMain oqOk fsQDemo).log ∨
     Ev.out ("📦 输入模型: " ++ "a.onnx.onnx") ∈ (quantMain oqOk fsQDemo).log) := by
  have h := C6_amended
  refine ⟨?_, ?_, ?_⟩
  · exact h.1 ocOk fsConvDemo "2"
      ⟨"YOLO-Fastest-XL", "models/yolo-fastest-1.1/yolo-fastest-1.1-xl.cfg",
       "models/yolo-fastest-1.1/yolo-fastest-1.1-xl.weights", "models/yolo-fastest-xl.onnx"⟩
      (by rfl) (by decide)
  · exact h.2.1 ouOk fsUDemo ("yolov8n.pt", "超轻量检测模型") (by decide)
  · exact h.2.2 oqOk fsQDemo "a.onnx.onnx" (by decide) (by decide)

/-- C8: whenever a driver reports success, an output file with non-zero
size exists at the declared output path — for `convert` and
`export_int8_model` under the contract that a successful library export
leaves a non-empty file at the path it reports، and for
`quantize_onnx_model` unconditionally (a zero-byte output makes the
compression-ratio division raise, turning the result into failure). -/
theorem C8_success_output (oc : ConvOracle) (ou : UltraOracle)
    (hc : ∀ m d, oc.torchExport m = .ok d → 0 < d.size)
    (hu : ∀ x pa od, ou.exportCall x = .ok (pa, od) → ∃ dd, od = some dd ∧ 0 < dd.size) :
    (∀ (fs : FS) (key : String) (mi : MInfo), findModel key = some mi →
      (convert oc fs key).rv = .ok true →
      ∃ d, FS.lookup (convert oc fs key).fs mi.output = some d ∧ 0 < d.size) ∧
    (∀ (fs : FS) (p : String), (export_int8_model ou fs p).rv = .ok true →
      ∃ d, FS.lookup (export_int8_model ou fs p).fs (int8Target p) = some d ∧ 0 < d.size) ∧
    (∀ (oq : QuantOracle) (fs : FS) (inp outp : String),
      (quantize_onnx_model oq fs inp outp).rv = .ok true →
      ∃ d, FS.lookup (quantize_onnx_model oq fs inp outp).fs outp = some d ∧ 0 < d.size) := by
  refine ⟨?_, ?_, ?_⟩
  · intro fs key mi hm h
    obtain ⟨ht, hfs⟩ := convert_ok_to_try oc fs key mi hm h
    obtain ⟨m, d, he, hl⟩ := convertTry_ok oc fs mi ht
    exact ⟨d, by rw [hfs]; exact hl, hc m d he⟩
  · intro fs p h
    obtain ⟨ht, hfs⟩ := export_int8_ok_to_try ou fs p h
    have hx : ∀ x pa od, ou.exportCall x = .ok (pa, od) → ∃ dd, od = some dd :=
      fun x pa od hh => (hu x pa od hh).elim (fun dd hdd => ⟨dd, hdd.1⟩)
    obtain ⟨x, pa, dd, he, hl⟩ := exportInt8Try_ok ou fs p hx ht
    obtain ⟨dd', hdd', hsz⟩ := hu x pa (some dd) he
    have hdd2 : dd = dd' := by injection hdd'
    subst hdd2
    exact ⟨dd, by rw [hfs]; exact hl, hsz⟩
  · intro oq fs inp outp h
    obtain ⟨ht, hfs⟩ := quantize_ok_to_try oq fs inp outp h
    obtain ⟨qd, hl, hsz⟩ := quantTry_ok oq fs inp outp ht
    exact ⟨qd, by rw [hfs]; exact hl, hsz⟩

/-- C8 witness: concrete successful runs of all three drivers. -/
theorem C8_witness :
    (∃ d, FS.lookup (convert ocOk fsConvDemo "2").fs "models/yolo-fastest-xl.onnx" = some d ∧
      0 < d.size) ∧
    (∃ d, FS.lookup (export_int8_model ouOk fsUDemo "yolov8n.pt").fs
      (int8Target "yolov8n.pt") = some d ∧ 0 < d.size) ∧
    (∃ d, FS.lookup (quantize_onnx_model oqOk fsQDemo "a.onnx.onnx" "a_int8.onnx").fs
      "a_int8.onnx" = some d ∧ 0 < d.size) := by
  have h := C8_success_output ocOk ouOk
    (fun m d hh => by cases hh; decide)
    (fun x pa od hh => by cases hh; exact ⟨FData.bin [5, 6], rfl, by decide⟩)
  refine ⟨?_, ?_, ?_⟩
  · exact h.1 fsConvDemo "2"
      ⟨"YOLO-Fastest-XL", "models/yolo-fastest-1.1/yolo-fastest-1.1-xl.cfg",
       "models/yolo-fastest-1.1/yolo-fastest-1.1-xl.weights", "models/yolo-fastest-xl.onnx"⟩
      (by rfl) (by rfl)
  · exact h.2.1 fsUDemo "yolov8n.pt" (by rfl)
  · exact h.2.2 oqOk fsQDemo "a.onnx.onnx" "a_int8.onnx" (by rfl)

/-- C9 counterexample: the output name is not produced by inserting
`"_int8"` before the `.onnx` extension — `main` deletes every occurrence
of `.onnx`: for the selected input `a.onnx.onnx` the run creates
`a_int8.onnx`, not `a.onnx_int8.onnx`. -/
theorem C9_counterexample :
    selName "a.onnx.onnx" = true ∧
    quantOutName "a.onnx.onnx" = "a_int8.onnx" ∧
    quantOutName "a.onnx.onnx" ≠ "a.onnx_int8.onnx" ∧
    FS.hasFile (quantMain oqOk fsQDemo).fs "a_int8.onnx" = true ∧
    FS.hasFile (quantMain oqOk fsQDemo).fs "a.onnx_int8.onnx" = false := by
  exact ⟨by decide, by decide, by decide, by decide, by decide⟩

/-- C9 (amended): `main` selects exactly the files whose name ends in
`.onnx` and does not contain `_int8`; each output is named by deleting
every occurrence of `.onnx` from the input name and appending
`_int8.onnx` (which coincides with inserting `_int8` before the
extension when `.onnx` occurs only as the extension); an input whose
output already exists is skipped; consequently a second run of `main`
over the directory left by a first run writes nothing and quantizes
nothing. -/
theorem C9_selection_naming_idem :
    (∀ (fs : FS) (n : String),
      n ∈ (fs.map (·.1)).filter selName ↔
        n ∈ fs.map (·.1) ∧ pyEnds n ".onnx" = true ∧ pyHasSub n "_int8" = false) ∧
    (∀ n, quantOutName n = pyReplace n ".onnx" "" ++ "_int8.onnx") ∧
    (∀ (oq : QuantOracle) (n : String) (rest : List String) (fs : FS) (succ : Nat),
      FS.hasFile fs (quantOutName n) = true →
      quantLoop oq (n :: rest) fs succ =
        ⟨(quantLoop oq rest fs succ).fs, (quantLoop oq rest fs succ).succ,
          .out ("⏭️ 跳过 (已存在): " ++ quantOutName n) :: (quantLoop oq rest fs succ).log⟩) ∧
    (∀ (oq : QuantOracle) (fs : FS),
      (quantMain oq (quantMain oq fs).fs).fs = (quantMain oq fs).fs ∧
      (quantMain oq (quantMain oq fs).fs).succ = 0) := by
  refine ⟨?_, fun n => rfl, ?_, fun oq fs => quantMain_idem oq fs⟩
  · intro fs n
    rw [List.mem_filter]
    constructor
    · rintro ⟨h1, h2⟩
      unfold selName at h2
      rw [Bool.and_eq_true] at h2
      exact ⟨h1, h2.1, by simpa using h2.2⟩
    · rintro ⟨h1, h2, h3⟩
      exact ⟨h1, by simp [selName, h2, h3]⟩
  · intro oq n rest fs succ hout
    simp [quantLoop, hout]

/-- C9 witness: selection, the skip branch, and idempotence at concrete
inputs. -/
theorem C9_witness :
    "a.onnx.onnx" ∈ ((fsQDemo.map (·.1)).filter selName) ∧
    quantLoop oqOk ["a.onnx.onnx"]
        [("a.onnx.onnx", FData.bin [1]), ("a_int8.onnx", FData.bin [9])] 0 =
      ⟨(quantLoop oqOk [] [("a.onnx.onnx", FData.bin [1]), ("a_int8.onnx", FData.bin [9])] 0).fs,
       (quantLoop oqOk [] [("a.onnx.onnx", FData.bin [1]), ("a_int8.onnx", FData.bin [9])] 0).succ,
       .out ("⏭️ 跳过 (已存在): " ++ quantOutName "a.onnx.onnx") ::
         (quantLoop oqOk [] [("a.onnx.onnx", FData.bin [1]), ("a_int8.onnx", FData.bin [9])] 0).log⟩ ∧
    (quantMain oqOk (quantMain oqOk fsQDemo).fs).fs = (quantMain oqOk fsQDemo).fs ∧
    (quantMain oqOk (quantMain oqOk fsQDemo).fs).succ = 0 := by
  have h := C9_selection_naming_idem
  refine ⟨?_, ?_, h.2.2.2 oqOk fsQDemo⟩
  · exact (h.1 fsQDemo "a.onnx.onnx").mpr ⟨by decide, by decide, by decide⟩
  · exact h.2.2.1 oqOk "a.onnx.onnx" []
      [("a.onnx.onnx", FData.bin [1]), ("a_int8.onnx", FData.bin [9])] 0 (by decide)

end Scripts
